import Mathlib

/-!
Shallow embedding of `src/Temporal_Fusion_Transform/data_formatters/volatility.py`
(the `VolatilityFormatter` class) and the behaviour of its library collaborators
(pandas data frames, `sklearn.preprocessing.StandardScaler` / `LabelEncoder`).

Modelling conventions:
* Numeric cell values are rationals (`ℚ`) on input; transformed tables hold
  reals (`ℝ`), because `StandardScaler` divides by a square root.
* A pandas `DataFrame` is a list of column names plus a row-major list of rows.
* Fallible Python operations return `Except PyError`; the error constructors
  mirror the Python exception classes that the corresponding operation raises.
* `sklearn.preprocessing.StandardScaler.fit` stores the per-column sample mean
  and the per-column population variance (`ddof = 0`); the scale used by
  `transform` / `inverse_transform` is `sqrt(var)` with zero scales replaced by
  one (sklearn's `_handle_zeros_in_scale`).  We store `(mean, var)` and derive
  the scale.
* `sklearn.preprocessing.LabelEncoder.fit` stores the sorted distinct labels
  (`numpy.unique`); `transform` maps each label to its index in that sorted
  list and raises on labels that were not seen at fit time.
* `pandas.Series.unique` returns the distinct values in order of first
  appearance.
-/

namespace VolFmt

deriving instance DecidableEq for Except

/-- A cell of a data frame: a number (rational on input, real after
transformation) or a string. -/
inductive Value (α : Type) where
  | num (x : α)
  | vstr (s : String)
deriving DecidableEq

/-- Python `str()` applied to a cell (used by `.apply(str)` in the source). -/
def Value.pyStr : Value ℚ → String
  | .num x => toString x
  | .vstr s => s

/-- Coercion of an input cell into a transformed-table cell. -/
def Value.toR : Value ℚ → Value ℝ
  | .num x => .num (x : ℝ)
  | .vstr s => .vstr s

/-- Python exceptions raised by the modelled operations. -/
inductive PyError where
  | keyError (col : String)
  | valueError (msg : String)
  | attributeError (msg : String)
  | typeError (msg : String)
deriving DecidableEq

/-- A pandas `DataFrame`: named columns and row-major cells. -/
structure Table (α : Type) where
  cols : List String
  rows : List (List (Value α))
deriving DecidableEq

/-- Well-formedness of a frame: column names are distinct and every row has
one cell per column. -/
def Table.WF (t : Table α) : Prop :=
  t.cols.Nodup ∧ ∀ r ∈ t.rows, r.length = t.cols.length

instance (t : Table α) : Decidable t.WF := by
  unfold Table.WF; infer_instance

/-- The cell of row `r` under column name `c`, where `cols` names the cells
of `r` in order (name-directed access, as pandas indexes by column name). -/
def getCell (cols : List String) (r : List (Value α)) (c : String) : Value α :=
  match cols, r with
  | c' :: cs, v :: vs => if c' = c then v else getCell cs vs c
  | _, _ => Value.vstr ""

/-- Overwrite the cell of row `r` under column name `c`. -/
def setCell (cols : List String) (r : List (Value α)) (c : String) (v : Value α) :
    List (Value α) :=
  match cols, r with
  | c' :: cs, w :: vs => (if c' = c then v else w) :: setCell cs vs c v
  | _, _ => r

/-- `df[c]`: the column named `c`, top to bottom; `KeyError` when absent. -/
def Table.getColE (t : Table α) (c : String) : Except PyError (List (Value α)) :=
  if c ∈ t.cols then .ok (t.rows.map (fun r => getCell t.cols r c))
  else .error (.keyError c)

/-- `df[c] = vs`: overwrite column `c` (or append it when absent). -/
def Table.setCol (t : Table α) (c : String) (vs : List (Value α)) : Table α :=
  if c ∈ t.cols then { t with rows := t.rows.zipWith (fun r v => setCell t.cols r c v) vs }
  else { cols := t.cols ++ [c], rows := t.rows.zipWith (fun r v => r ++ [v]) vs }

/-- Sequential column overwrites (`df[cs] = matrix` assigns column by column). -/
def Table.setCols (t : Table α) : List (String × List (Value α)) → Table α
  | [] => t
  | (c, vs) :: ps => (t.setCol c vs).setCols ps

/-- `df.copy()` of an input frame, viewed at transformed-cell type. -/
def Table.toR (t : Table ℚ) : Table ℝ :=
  { cols := t.cols, rows := t.rows.map (fun r => r.map Value.toR) }

/-- Numeric read of a column's cells, as numpy does before fitting or
scaling; a string cell raises (`could not convert string to float`). -/
def colToQ : List (Value ℚ) → Except PyError (List ℚ)
  | [] => .ok []
  | .num x :: vs => do pure (x :: (← colToQ vs))
  | .vstr _ :: _ => .error (.valueError "could not convert string to float")

/-- `df[c]` followed by numeric conversion. -/
def Table.numCol (t : Table ℚ) (c : String) : Except PyError (List ℚ) := do
  colToQ (← t.getColE c)

/-- `pandas.Series.unique`: distinct values in order of first appearance. -/
def uniqueFirst {α : Type} [DecidableEq α] (l : List α) : List α :=
  l.foldl (fun acc v => if v ∈ acc then acc else acc ++ [v]) []

/-- Sample mean of a list of rationals. -/
def meanQ (l : List ℚ) : ℚ := l.sum / l.length

/-- Population variance (`ddof = 0`, numpy's default) of a list of rationals. -/
def varQ (l : List ℚ) : ℚ := (l.map (fun x => (x - meanQ l) ^ 2)).sum / l.length

/-- Per-column state of a fitted `StandardScaler`: stored mean and variance. -/
structure Scaler where
  mean : ℚ
  var : ℚ
deriving DecidableEq

/-- `StandardScaler.fit` on one column; sklearn rejects empty input
(`Found array with 0 sample(s)`). -/
def fitScaler (l : List ℚ) : Except PyError Scaler :=
  if l = [] then .error (.valueError "Found array with 0 samples")
  else .ok ⟨meanQ l, varQ l⟩

/-- The scale a fitted `StandardScaler` divides by: the square root of the
stored variance, with zeros replaced by one (`_handle_zeros_in_scale`). -/
noncomputable def Scaler.scale (s : Scaler) : ℝ :=
  if Real.sqrt (s.var : ℝ) = 0 then 1 else Real.sqrt (s.var : ℝ)

/-- `StandardScaler.transform` on one cell. -/
noncomputable def Scaler.tfm (s : Scaler) (v : ℝ) : ℝ := (v - (s.mean : ℝ)) / s.scale

/-- `StandardScaler.inverse_transform` on one cell. -/
noncomputable def Scaler.itfm (s : Scaler) (v : ℝ) : ℝ := v * s.scale + (s.mean : ℝ)

/-- `LabelEncoder.fit`: the sorted distinct labels (`numpy.unique`). -/
def labelFit (vals : List String) : List String :=
  (vals.dedup).insertionSort (· ≤ ·)

/-- `LabelEncoder.transform`: index of each label in the sorted class list,
raising on labels unseen at fit time. -/
def labelTransform (classes : List String) (vals : List String) :
    Except PyError (List ℕ) :=
  if ∀ v ∈ vals, v ∈ classes then .ok (vals.map (fun v => classes.indexOf v))
  else .error (.valueError "y contains previously unseen labels")

/-- `DataTypes` enum of the formatter library. -/
inductive DataTypes where
  | REAL_VALUED
  | CATEGORICAL
deriving DecidableEq

/-- `InputTypes` enum of the formatter library (the five roles the schema
uses). -/
inductive InputTypes where
  | TARGET
  | KNOWN_INPUT
  | STATIC_INPUT
  | ID
  | TIME
deriving DecidableEq

/-- `VolatilityFormatter._column_definition`, verbatim from the source. -/
def column_definition : List (String × DataTypes × InputTypes) :=
  [ ("PRICE_ASK_0", .REAL_VALUED, .KNOWN_INPUT),
    ("PRICE_BID_0", .REAL_VALUED, .KNOWN_INPUT),
    ("VOLUME_ASK_0", .REAL_VALUED, .KNOWN_INPUT),
    ("VOLUME_BID_0", .REAL_VALUED, .KNOWN_INPUT),
    ("SPREAD", .REAL_VALUED, .KNOWN_INPUT),
    ("midprice", .REAL_VALUED, .KNOWN_INPUT),
    ("id", .REAL_VALUED, .ID),
    ("time", .REAL_VALUED, .TIME),
    ("rolling_volatility", .REAL_VALUED, .TARGET),
    ("STOCK", .CATEGORICAL, .STATIC_INPUT) ]

/-- Modelled from the spec: the base-class accessor `get_column_definition`
(file `data_formatters/base.py`, not under `src/`).  Per spec section 3 the
schema "order is insertion order and is preserved in all derived column
lists", so the accessor returns the declared schema. -/
def get_column_definition : List (String × DataTypes × InputTypes) :=
  column_definition

/-- Modelled from the spec: `utils2.get_single_col_by_input_type` (not under
`src/`); spec section 4.1: singleton role lookup, "Must raise an error if the
requested role has zero or more-than-one match". -/
def get_single_col_by_input_type (it : InputTypes)
    (defs : List (String × DataTypes × InputTypes)) : Except PyError String :=
  match (defs.filter (fun t => t.2.2 = it)).map (fun t => t.1) with
  | [c] => .ok c
  | _ => .error (.valueError "Invalid number of columns for input type")

/-- Modelled from the spec: `utils2.extract_cols_from_data_type` (not under
`src/`); spec section 4.1: "returns ordered sequence of column names of a
given semantic type, filtering out any whose role is in `exclude_roles`.
Preserves schema order." -/
def extract_cols_from_data_type (dt : DataTypes)
    (defs : List (String × DataTypes × InputTypes))
    (excl : List InputTypes) : List String :=
  (defs.filter (fun t => t.2.1 = dt ∧ t.2.2 ∉ excl)).map (fun t => t.1)

/-- The real-valued inputs used by `set_scalers` and `transform_inputs`:
real-valued columns whose role is neither `ID` nor `TIME` (the target is not
excluded). -/
def real_inputs : List String :=
  extract_cols_from_data_type .REAL_VALUED get_column_definition [.ID, .TIME]

/-- The categorical inputs used by `set_scalers` and `transform_inputs`. -/
def categorical_inputs : List String :=
  extract_cols_from_data_type .CATEGORICAL get_column_definition [.ID, .TIME]

/-- Calibratable state of a `VolatilityFormatter` (the attributes set in
`__init__` and overwritten by `set_scalers`). -/
structure Formatter where
  identifiers : Option (List (Value ℚ))
  real_scalers : Option (List Scaler)
  cat_scalers : Option (List (String × List String))
  target_scaler : Option Scaler
  num_classes_per_cat_input : Option (List ℕ)
deriving DecidableEq

/-- `VolatilityFormatter.__init__`: all calibratable state unset. -/
def Formatter.init : Formatter :=
  ⟨none, none, none, none, none⟩

/-- `VolatilityFormatter.set_scalers(df)`, returning the updated formatter
state.  Step order follows the source: singleton column lookups, identifier
extraction, real-scaler fit (jointly over `real_inputs`, per-column
statistics), target-scaler fit, then the categorical loop that label-encodes
the stringified column and records `srs.nunique()`. -/
def set_scalers (_fm : Formatter) (df : Table ℚ) : Except PyError Formatter := do
  let id_column ← get_single_col_by_input_type .ID get_column_definition
  let target_column ← get_single_col_by_input_type .TARGET get_column_definition
  let idvals ← df.getColE id_column
  let identifiers := uniqueFirst idvals
  let mat ← real_inputs.mapM (fun c => df.numCol c)
  let rscalers ← mat.mapM fitScaler
  let tvals ← df.numCol target_column
  let tscaler ← fitScaler tvals
  let cats ← categorical_inputs.mapM (fun c => do
    let vs ← df.getColE c
    let srs := vs.map Value.pyStr
    pure ((c, labelFit srs), srs.dedup.length))
  pure { identifiers := some identifiers,
         real_scalers := some rscalers,
         cat_scalers := some (cats.map (fun p => p.1)),
         target_scaler := some tscaler,
         num_classes_per_cat_input := some (cats.map (fun p => p.2)) }

/-- `VolatilityFormatter.transform_inputs(df)`.  Mirrors the source: copy the
frame, raise `ValueError` when *both* scaler attributes are unset, standardise
the `real_inputs` columns with the stored per-column statistics (reading from
the input frame), then label-encode each stringified categorical column.  An
unset real-scaler alone surfaces as an `AttributeError` on `None`, an unset
categorical dictionary alone as a `TypeError` (`None` is not subscriptable),
exactly as in Python. -/
noncomputable def transform_inputs (fm : Formatter) (df : Table ℚ) :
    Except PyError (Table ℝ) := do
  let output := df.toR
  if fm.real_scalers = none ∧ fm.cat_scalers = none then
    throw (.valueError "Scalers have not been set!")
  let rss ← match fm.real_scalers with
    | some rss => pure rss
    | none => throw (.attributeError "NoneType object has no attribute transform")
  let mat ← real_inputs.mapM (fun c => df.numCol c)
  if mat.length ≠ rss.length then
    throw (.valueError "X has a different number of features than the fitted scaler")
  let scaled := (real_inputs.zip ((rss.zip mat).map
      (fun p => p.2.map (fun (v : ℚ) => Value.num (p.1.tfm (v : ℝ))))))
  let output := output.setCols scaled
  let cs ← match fm.cat_scalers with
    | some cs => pure cs
    | none => throw (.typeError "NoneType object is not subscriptable")
  let output ← categorical_inputs.foldlM (fun (out : Table ℝ) c => do
    let vs ← df.getColE c
    let srs := vs.map Value.pyStr
    let classes ← match cs.find? (fun p => p.1 = c) with
      | some p => pure p.2
      | none => throw (.keyError c)
    let codes ← labelTransform classes srs
    pure (out.setCol c (codes.map (fun (k : ℕ) => Value.num (k : ℝ))))) output
  pure output

/-- Body of the `format_predictions` loop over the prediction columns:
reserved columns (`forecast_time`, `identifier`) are skipped, every other
column is read from the input frame, converted to numbers and overwritten
with its target-scaler inverse transform. -/
noncomputable def fpStep (fm : Formatter) (predictions : Table ℚ)
    (out : Table ℝ) (c : String) : Except PyError (Table ℝ) :=
  if c = "forecast_time" ∨ c = "identifier" then pure out
  else do
    let s ← match fm.target_scaler with
      | some s => pure s
      | none =>
          throw (.attributeError "NoneType object has no attribute inverse_transform")
    let vs ← predictions.getColE c
    let qs ← colToQ vs
    pure (out.setCol c (qs.map (fun (v : ℚ) => Value.num (s.itfm (v : ℝ)))))

/-- `VolatilityFormatter.format_predictions(predictions)`: copy the frame and
inverse-transform every column except `forecast_time` and `identifier` with
the target scaler.  There is no calibration guard; with an unset target
scaler the first non-reserved column raises `AttributeError` on `None`. -/
noncomputable def format_predictions (fm : Formatter) (predictions : Table ℚ) :
    Except PyError (Table ℝ) :=
  predictions.cols.foldlM (fpStep fm predictions) predictions.toR

/-- `df.loc[mask]` where the mask compares the `DAY` column against a
boundary predicate; raises `KeyError` when `DAY` is absent and a conversion
error when a `DAY` cell is not numeric (pandas raises a `TypeError` on
string-number comparison; the distinction is immaterial to the claims). -/
def filterByDay (df : Table ℚ) (p : ℚ → Bool) : Except PyError (Table ℚ) := do
  let ds ← colToQ (← df.getColE "DAY")
  pure { cols := df.cols,
         rows := ((df.rows.zip ds).filter (fun rd => p rd.2)).map (fun rd => rd.1) }

/-- `VolatilityFormatter.split_data(df, valid_boundary, test_boundary)`:
filter the three partitions by the `DAY` column, calibrate on the training
partition only, and return the three transforms in order.  The source returns
a lazy generator whose elements are produced on demand; we keep that
behaviour by returning the three `transform_inputs` computations as
unevaluated `Except` values (spec section 4.2 sanctions an eager triple). -/
noncomputable def split_data (fm : Formatter) (df : Table ℚ) (valid_boundary test_boundary : ℚ) :
    Except PyError (Formatter ×
      Except PyError (Table ℝ) × Except PyError (Table ℝ) × Except PyError (Table ℝ)) := do
  let train ← filterByDay df (fun d => decide (d < valid_boundary))
  let valid ← filterByDay df (fun d => decide (valid_boundary ≤ d ∧ d < test_boundary))
  let test ← filterByDay df (fun d => decide (test_boundary ≤ d))
  let fm' ← set_scalers fm train
  pure (fm', transform_inputs fm' train, transform_inputs fm' valid,
        transform_inputs fm' test)

/-! ### Concrete frames used to instantiate the theorems -/

/-- Column list of the volatility schema plus the `DAY` partition key. -/
def wCols : List String :=
  ["id", "time", "PRICE_ASK_0", "PRICE_BID_0", "VOLUME_ASK_0", "VOLUME_BID_0",
   "SPREAD", "midprice", "rolling_volatility", "STOCK", "DAY"]

/-- A row with identifier `i`, time and day `d`, all real features and the
target equal to `x`, and stock label `stk`. -/
def wRowS (i d x : ℚ) (stk : String) : List (Value ℚ) :=
  [.num i, .num d, .num x, .num x, .num x, .num x, .num x, .num x, .num x,
   .vstr stk, .num d]

/-- `wRowS` with the fixed stock label `A`. -/
def wRow (i d x : ℚ) : List (Value ℚ) := wRowS i d x "A"

def T0 : Table ℚ := ⟨wCols, [wRow 1 1 0, wRow 1 2 2]⟩

/-- Calibration result on `T0` (and on `T4tr`): every real column is `[0, 2]`,
so every per-column scaler is `(mean 1, var 1)`. -/
def fmT0 : Formatter :=
  { identifiers := some [.num 1],
    real_scalers := some [⟨1, 1⟩, ⟨1, 1⟩, ⟨1, 1⟩, ⟨1, 1⟩, ⟨1, 1⟩, ⟨1, 1⟩, ⟨1, 1⟩],
    cat_scalers := some [("STOCK", ["A"])],
    target_scaler := some ⟨1, 1⟩,
    num_classes_per_cat_input := some [1] }

def T4 : Table ℚ := ⟨wCols, [wRow 1 5 0, wRow 1 6 2, wRow 1 7 5, wRow 1 8 6, wRow 1 9 7]⟩

def T4b : Table ℚ := ⟨wCols, [wRow 1 5 0, wRow 1 6 2, wRow 1 7 5, wRow 1 8 6, wRow 1 9 100]⟩

def T4tr : Table ℚ := ⟨wCols, [wRow 1 5 0, wRow 1 6 2]⟩

def T4va : Table ℚ := ⟨wCols, [wRow 1 7 5]⟩

def T4te : Table ℚ := ⟨wCols, [wRow 1 8 6, wRow 1 9 7]⟩

def T4bte : Table ℚ := ⟨wCols, [wRow 1 8 6, wRow 1 9 100]⟩

def T4c : Table ℚ := ⟨wCols, [wRow 1 7 3]⟩

def T4cva : Table ℚ := ⟨wCols, []⟩

/-- Calibration result on the single-row frame `T4c`. -/
def fmT4c : Formatter :=
  { identifiers := some [.num 1],
    real_scalers := some [⟨3, 0⟩, ⟨3, 0⟩, ⟨3, 0⟩, ⟨3, 0⟩, ⟨3, 0⟩, ⟨3, 0⟩, ⟨3, 0⟩],
    cat_scalers := some [("STOCK", ["A"])],
    target_scaler := some ⟨3, 0⟩,
    num_classes_per_cat_input := some [1] }

def Pres : Table ℚ := ⟨["forecast_time", "identifier"], [[.num 1, .num 2]]⟩

def Pbad : Table ℚ := ⟨["forecast_time", "identifier", "p10"], [[.num 1, .num 2, .num 3]]⟩

def P6 : Table ℚ :=
  ⟨["forecast_time", "identifier", "p50"],
   [[.num 1, .num 1, .num 0], [.num 2, .num 1, .num 2]]⟩

def T7 : Table ℚ := ⟨wCols, [wRow 1 1 0, wRowS 1 2 2 "B"]⟩

def T9 : Table ℚ := ⟨wCols, [wRow 1 3 5]⟩

/-- Calibration result on the single-row frame `T9`. -/
def fmT9 : Formatter :=
  { identifiers := some [.num 1],
    real_scalers := some [⟨5, 0⟩, ⟨5, 0⟩, ⟨5, 0⟩, ⟨5, 0⟩, ⟨5, 0⟩, ⟨5, 0⟩, ⟨5, 0⟩],
    cat_scalers := some [("STOCK", ["A"])],
    target_scaler := some ⟨5, 0⟩,
    num_classes_per_cat_input := some [1] }

def T10 : Table ℚ := ⟨wCols, [wRowS 2 1 0 "A", wRowS 1 2 2 "A", wRowS 2 3 4 "A"]⟩

/-- Calibration result on `T10` (columns `[0, 2, 4]`: mean `2`, variance
`8/3`; identifier column `[2, 1, 2]`). -/
def fmT10 : Formatter :=
  { identifiers := some [.num 2, .num 1],
    real_scalers := some [⟨2, 8/3⟩, ⟨2, 8/3⟩, ⟨2, 8/3⟩, ⟨2, 8/3⟩, ⟨2, 8/3⟩,
      ⟨2, 8/3⟩, ⟨2, 8/3⟩],
    cat_scalers := some [("STOCK", ["A"])],
    target_scaler := some ⟨2, 8/3⟩,
    num_classes_per_cat_input := some [1] }

/-! ### Basic lemmas about the table model -/

theorem setCell_length {α : Type} (cols : List String) (r : List (Value α))
    (c : String) (v : Value α) : (setCell cols r c v).length = r.length := by
  induction cols generalizing r with
  | nil => cases r <;> simp [setCell]
  | cons c' cs ih =>
      cases r with
      | nil => simp [setCell]
      | cons w ws => simp [setCell, ih]

theorem getCell_setCell_same {α : Type} (cols : List String) (r : List (Value α))
    (c : String) (v : Value α) (hc : c ∈ cols) (hlen : r.length = cols.length) :
    getCell cols (setCell cols r c v) c = v := by
  induction cols generalizing r with
  | nil => simp at hc
  | cons c' cs ih =>
      cases r with
      | nil => simp at hlen
      | cons w ws =>
          by_cases h : c' = c
          · simp [setCell, getCell, h]
          · have hc' : c ∈ cs := by
              rcases List.mem_cons.mp hc with h1 | h1
              · exact absurd h1.symm h
              · exact h1
            simp only [setCell, getCell, if_neg h]
            simpa [if_neg h] using ih ws hc' (by simpa using hlen)

theorem getCell_setCell_ne {α : Type} (cols : List String) (r : List (Value α))
    (c c' : String) (v : Value α) (hne : c' ≠ c) :
    getCell cols (setCell cols r c v) c' = getCell cols r c' := by
  induction cols generalizing r with
  | nil => cases r <;> simp [setCell]
  | cons c₀ cs ih =>
      cases r with
      | nil => simp [setCell]
      | cons w ws =>
          by_cases h : c₀ = c'
          · have h3 : ¬ c₀ = c := fun hh => hne (h ▸ hh ▸ rfl)
            simp only [setCell, getCell, h, h3, if_false, if_neg h3]
            simp [Ne.symm hne, hne]
          · by_cases h2 : c₀ = c <;>
              simp [setCell, getCell, h, h2, ih, Ne.symm hne]

theorem getCell_toR (cols : List String) (r : List (Value ℚ)) (c : String) :
    getCell cols (r.map Value.toR) c = Value.toR (getCell cols r c) := by
  induction cols generalizing r with
  | nil => cases r <;> simp [getCell, Value.toR]
  | cons c₀ cs ih =>
      cases r with
      | nil => simp [getCell, Value.toR]
      | cons w ws =>
          by_cases h : c₀ = c <;> simp [getCell, h, ih]

theorem Table.toR_cols (t : Table ℚ) : t.toR.cols = t.cols := rfl

/-- Helper: a zip ignoring its first component collapses to that component. -/
theorem zipWith_snd {α β : Type} (as : List α) (bs : List β)
    (h : bs.length = as.length) : List.zipWith (fun _ b => b) as bs = bs := by
  induction as generalizing bs with
  | nil => cases bs <;> simp_all
  | cons a as' ih =>
      cases bs with
      | nil => simp at h
      | cons b bs' => simpa using ih bs' (by simpa using h)

/-- Helper: a zip ignoring its second component collapses to a map. -/
theorem zipWith_fst {α β γ : Type} (f : α → γ) (as : List α) (bs : List β)
    (h : bs.length = as.length) :
    List.zipWith (fun a _ => f a) as bs = as.map f := by
  induction as generalizing bs with
  | nil => simp
  | cons a as' ih =>
      cases bs with
      | nil => simp at h
      | cons b bs' => simpa using ih bs' (by simpa using h)

theorem Table.getColE_mem {α : Type} (t : Table α) (c : String)
    (vs : List (Value α)) (h : t.getColE c = .ok vs) : c ∈ t.cols := by
  unfold Table.getColE at h
  by_cases hc : c ∈ t.cols
  · exact hc
  · simp [hc] at h

theorem Table.getColE_length {α : Type} (t : Table α) (c : String)
    (vs : List (Value α)) (h : t.getColE c = .ok vs) : vs.length = t.rows.length := by
  have hc := Table.getColE_mem t c vs h
  unfold Table.getColE at h
  rw [if_pos hc] at h
  cases h
  simp

theorem Table.getColE_toR (t : Table ℚ) (c : String) (vs : List (Value ℚ))
    (h : t.getColE c = .ok vs) : t.toR.getColE c = .ok (vs.map Value.toR) := by
  have hc := Table.getColE_mem t c vs h
  unfold Table.getColE at h ⊢
  rw [if_pos hc] at h
  cases h
  simp only [Table.toR]
  rw [if_pos hc]
  simp [List.map_map, Function.comp, getCell_toR]

theorem Table.setCol_cols {α : Type} (t : Table α) (c : String)
    (vs : List (Value α)) (hc : c ∈ t.cols) : (t.setCol c vs).cols = t.cols := by
  simp [Table.setCol, hc]

theorem Table.setCol_rows_length {α : Type} (t : Table α) (c : String)
    (vs : List (Value α)) (hc : c ∈ t.cols) (hlen : vs.length = t.rows.length) :
    (t.setCol c vs).rows.length = t.rows.length := by
  simp [Table.setCol, hc, hlen]

theorem Table.setCol_WF {α : Type} (t : Table α) (c : String)
    (vs : List (Value α)) (hc : c ∈ t.cols) (hWF : t.WF) : (t.setCol c vs).WF := by
  constructor
  · rw [Table.setCol_cols t c vs hc]; exact hWF.1
  · intro r hr
    rw [Table.setCol_cols t c vs hc]
    simp only [Table.setCol, if_pos hc] at hr
    obtain ⟨i, hi, rfl⟩ := List.mem_iff_getElem.mp hr
    rw [List.getElem_zipWith, setCell_length]
    exact hWF.2 _ (List.getElem_mem _)

theorem Table.getColE_setCol_same {α : Type} (t : Table α) (c : String)
    (vs : List (Value α)) (hc : c ∈ t.cols) (hWF : t.WF)
    (hlen : vs.length = t.rows.length) : (t.setCol c vs).getColE c = .ok vs := by
  have hcols := Table.setCol_cols t c vs hc
  unfold Table.getColE
  rw [hcols, if_pos hc]
  congr 1
  simp only [Table.setCol, if_pos hc]
  rw [List.map_zipWith]
  have step : List.zipWith (fun r v => getCell t.cols (setCell t.cols r c v) c) t.rows vs
      = List.zipWith (fun _ v => v) t.rows vs := by
    apply List.zipWith_congr
    refine List.forall₂_iff_zip.mpr ⟨by omega, ?_⟩
    intro r v hrv
    exact getCell_setCell_same t.cols r c v hc (hWF.2 r (List.of_mem_zip hrv).1)
  rw [step, zipWith_snd _ _ hlen]

theorem Table.getColE_setCol_ne {α : Type} (t : Table α) (c c' : String)
    (vs : List (Value α)) (hc : c ∈ t.cols) (hne : c' ≠ c)
    (hlen : vs.length = t.rows.length) :
    (t.setCol c vs).getColE c' = t.getColE c' := by
  have hcols := Table.setCol_cols t c vs hc
  unfold Table.getColE
  rw [hcols]
  by_cases hc' : c' ∈ t.cols
  · rw [if_pos hc', if_pos hc']
    congr 1
    simp only [Table.setCol, if_pos hc]
    rw [List.map_zipWith]
    have step : List.zipWith (fun r v => getCell t.cols (setCell t.cols r c v) c') t.rows vs
        = List.zipWith (fun r _ => getCell t.cols r c') t.rows vs := by
      apply List.zipWith_congr
      refine List.forall₂_iff_zip.mpr ⟨by omega, ?_⟩
      intro r v _
      exact getCell_setCell_ne t.cols r c c' v hne
    rw [step, zipWith_fst _ _ _ hlen]
  · rw [if_neg hc', if_neg hc']

theorem colToQ_length (vs : List (Value ℚ)) (qs : List ℚ)
    (h : colToQ vs = .ok qs) : qs.length = vs.length := by
  induction vs generalizing qs with
  | nil =>
      simp only [colToQ, Except.ok.injEq] at h
      simp [← h]
  | cons v vs' ih =>
      cases v with
      | num x =>
          cases h2 : colToQ vs' with
          | error e => simp [colToQ, h2, bind, Except.bind] at h
          | ok qs' =>
              simp only [colToQ, h2, bind, Except.bind, pure, Except.pure,
                Except.ok.injEq] at h
              subst h
              simpa using ih qs' h2
      | vstr s => simp [colToQ] at h

theorem okBind {ε α β : Type} (a : α) (f : α → Except ε β) :
    (Except.ok a >>= f) = f a := rfl

theorem errBind {ε α β : Type} (e : ε) (f : α → Except ε β) :
    ((Except.error e : Except ε α) >>= f) = .error e := rfl

theorem mapM_length_ok {ε α β : Type} (f : α → Except ε β) (l : List α)
    (ys : List β) (h : l.mapM f = .ok ys) : ys.length = l.length := by
  induction l generalizing ys with
  | nil => simp only [List.mapM_nil, pure, Except.pure, Except.ok.injEq] at h; simp [← h]
  | cons a l' ih =>
      rw [List.mapM_cons] at h
      cases h1 : f a with
      | error e => rw [h1] at h; simp [errBind] at h
      | ok b =>
          rw [h1, okBind] at h
          cases h2 : l'.mapM f with
          | error e => rw [h2] at h; simp [errBind] at h
          | ok bs =>
              rw [h2, okBind] at h
              simp only [pure, Except.pure, Except.ok.injEq] at h
              subst h
              simpa using ih bs h2

theorem mapM_fitScaler_ok (mat : List (List ℚ)) (rs : List Scaler)
    (h : mat.mapM fitScaler = .ok rs) :
    (∀ l ∈ mat, l ≠ []) ∧ rs = mat.map (fun l => Scaler.mk (meanQ l) (varQ l)) := by
  induction mat generalizing rs with
  | nil =>
      simp only [List.mapM_nil, pure, Except.pure, Except.ok.injEq] at h
      simp [← h]
  | cons l mat' ih =>
      rw [List.mapM_cons] at h
      by_cases hl : l = []
      · rw [hl] at h; simp [fitScaler, errBind] at h
      · rw [show fitScaler l = .ok ⟨meanQ l, varQ l⟩ from by simp [fitScaler, hl],
          okBind] at h
        cases h2 : mat'.mapM fitScaler with
        | error e => rw [h2] at h; simp [errBind] at h
        | ok rs' =>
            rw [h2, okBind] at h
            simp only [pure, Except.pure, Except.ok.injEq] at h
            subst h
            obtain ⟨ha, hb⟩ := ih rs' h2
            refine ⟨?_, by simp [hb]⟩
            intro x hx
            rcases List.mem_cons.mp hx with h3 | h3
            · exact h3 ▸ hl
            · exact ha x h3

theorem mapM_fitScaler_of_ne (mat : List (List ℚ)) (hne : ∀ l ∈ mat, l ≠ []) :
    mat.mapM fitScaler = .ok (mat.map (fun l => Scaler.mk (meanQ l) (varQ l))) := by
  induction mat with
  | nil => rfl
  | cons l mat' ih =>
      rw [List.mapM_cons,
        show fitScaler l = .ok ⟨meanQ l, varQ l⟩ from by
          simp [fitScaler, hne l (by simp)], okBind,
        ih (fun x hx => hne x (List.mem_cons_of_mem _ hx)), okBind]
      rfl

/-! ### Lemmas about `Table.setCols` -/

theorem Table.setCols_cols {α : Type} (t : Table α)
    (ps : List (String × List (Value α))) (hmem : ∀ p ∈ ps, p.1 ∈ t.cols) :
    (t.setCols ps).cols = t.cols := by
  induction ps generalizing t with
  | nil => rfl
  | cons p ps' ih =>
      obtain ⟨c, vs⟩ := p
      have hc : c ∈ t.cols := hmem (c, vs) (by simp)
      rw [Table.setCols, ih (t.setCol c vs)
        (fun q hq => by rw [Table.setCol_cols t c vs hc]; exact hmem q (by simp [hq])),
        Table.setCol_cols t c vs hc]

theorem Table.setCols_rows_length {α : Type} (t : Table α)
    (ps : List (String × List (Value α))) (hmem : ∀ p ∈ ps, p.1 ∈ t.cols)
    (hlen : ∀ p ∈ ps, p.2.length = t.rows.length) :
    (t.setCols ps).rows.length = t.rows.length := by
  induction ps generalizing t with
  | nil => rfl
  | cons p ps' ih =>
      obtain ⟨c, vs⟩ := p
      have hc : c ∈ t.cols := hmem (c, vs) (by simp)
      have hl : vs.length = t.rows.length := hlen (c, vs) (by simp)
      have hrec := ih (t.setCol c vs)
        (fun q hq => by rw [Table.setCol_cols t c vs hc]; exact hmem q (by simp [hq]))
        (fun q hq => by
          rw [Table.setCol_rows_length t c vs hc hl]
          exact hlen q (by simp [hq]))
      rw [Table.setCols, hrec, Table.setCol_rows_length t c vs hc hl]

theorem Table.setCols_WF {α : Type} (t : Table α)
    (ps : List (String × List (Value α))) (hmem : ∀ p ∈ ps, p.1 ∈ t.cols)
    (hWF : t.WF) : (t.setCols ps).WF := by
  induction ps generalizing t with
  | nil => exact hWF
  | cons p ps' ih =>
      obtain ⟨c, vs⟩ := p
      have hc : c ∈ t.cols := hmem (c, vs) (by simp)
      exact ih (t.setCol c vs)
        (fun q hq => by rw [Table.setCol_cols t c vs hc]; exact hmem q (by simp [hq]))
        (Table.setCol_WF t c vs hc hWF)

theorem Table.getColE_setCols_notMem {α : Type} (t : Table α)
    (ps : List (String × List (Value α))) (c : String)
    (hmem : ∀ p ∈ ps, p.1 ∈ t.cols)
    (hlen : ∀ p ∈ ps, p.2.length = t.rows.length)
    (hout : c ∉ ps.map Prod.fst) :
    (t.setCols ps).getColE c = t.getColE c := by
  induction ps generalizing t with
  | nil => rfl
  | cons p ps' ih =>
      obtain ⟨c₀, vs₀⟩ := p
      have hc : c₀ ∈ t.cols := hmem (c₀, vs₀) (by simp)
      have hl : vs₀.length = t.rows.length := hlen (c₀, vs₀) (by simp)
      have hne : c ≠ c₀ := by
        intro hh
        exact hout (by simp [hh])
      rw [Table.setCols,
        ih (t.setCol c₀ vs₀)
          (fun q hq => by rw [Table.setCol_cols t c₀ vs₀ hc]; exact hmem q (by simp [hq]))
          (fun q hq => by
            rw [Table.setCol_rows_length t c₀ vs₀ hc hl]
            exact hlen q (by simp [hq]))
          (fun hh => hout (by simp at hh ⊢; exact Or.inr hh)),
        Table.getColE_setCol_ne t c₀ c vs₀ hc hne hl]

theorem Table.getColE_setCols_mem {α : Type} (t : Table α)
    (ps : List (String × List (Value α))) (c : String) (vs : List (Value α))
    (hmem : ∀ p ∈ ps, p.1 ∈ t.cols)
    (hlen : ∀ p ∈ ps, p.2.length = t.rows.length)
    (hnd : (ps.map Prod.fst).Nodup) (hin : (c, vs) ∈ ps) (hWF : t.WF) :
    (t.setCols ps).getColE c = .ok vs := by
  induction ps generalizing t with
  | nil => simp at hin
  | cons p ps' ih =>
      obtain ⟨c₀, vs₀⟩ := p
      have hc : c₀ ∈ t.cols := hmem (c₀, vs₀) (by simp)
      have hl : vs₀.length = t.rows.length := hlen (c₀, vs₀) (by simp)
      rcases List.mem_cons.mp hin with hhead | htail
      · have h1 : c = c₀ := (Prod.mk.inj hhead).1
        have h2 : vs = vs₀ := (Prod.mk.inj hhead).2
        rw [h1, h2, Table.setCols,
          Table.getColE_setCols_notMem (t.setCol c₀ vs₀) ps' c₀
            (fun q hq => by rw [Table.setCol_cols t c₀ vs₀ hc]; exact hmem q (by simp [hq]))
            (fun q hq => by
              rw [Table.setCol_rows_length t c₀ vs₀ hc hl]
              exact hlen q (by simp [hq]))
            (by simpa using (List.nodup_cons.mp hnd).1),
          Table.getColE_setCol_same t c₀ vs₀ hc hWF hl]
      · rw [Table.setCols]
        exact ih (t.setCol c₀ vs₀)
          (fun q hq => by rw [Table.setCol_cols t c₀ vs₀ hc]; exact hmem q (by simp [hq]))
          (fun q hq => by
            rw [Table.setCol_rows_length t c₀ vs₀ hc hl]
            exact hlen q (by simp [hq]))
          (List.nodup_cons.mp hnd).2 htail (Table.setCol_WF t c₀ vs₀ hc hWF)

/-! ### Closed form of `set_scalers` -/

theorem fitScaler_ok (l : List ℚ) (s : Scaler) (h : fitScaler l = .ok s) :
    l ≠ [] ∧ s = Scaler.mk (meanQ l) (varQ l) := by
  by_cases hl : l = []
  · simp [fitScaler, hl] at h
  · simp only [fitScaler, if_neg hl, Except.ok.injEq] at h
    exact ⟨hl, h.symm⟩

/-- The whole `set_scalers` pipeline, with the schema lookups evaluated: the
resulting state is a function of the `id`, real-input, target and `STOCK`
columns of the calibration frame alone (and of nothing else). -/
theorem set_scalers_eq (fm : Formatter) (df : Table ℚ) :
    set_scalers fm df = (do
      let idvals ← df.getColE "id"
      let mat ← real_inputs.mapM df.numCol
      let rscalers ← mat.mapM fitScaler
      let tvals ← df.numCol "rolling_volatility"
      let tscaler ← fitScaler tvals
      let svs ← df.getColE "STOCK"
      pure { identifiers := some (uniqueFirst idvals),
             real_scalers := some rscalers,
             cat_scalers := some [("STOCK", labelFit (svs.map Value.pyStr))],
             target_scaler := some tscaler,
             num_classes_per_cat_input := some [(svs.map Value.pyStr).dedup.length] }) := by
  unfold set_scalers
  simp only [show get_single_col_by_input_type .ID get_column_definition
      = Except.ok "id" from rfl,
    show get_single_col_by_input_type .TARGET get_column_definition
      = Except.ok "rolling_volatility" from rfl, okBind]
  cases h1 : df.getColE "id" with
  | error e => simp only [h1, errBind]
  | ok idvals =>
    simp only [h1, okBind]
    cases h2 : real_inputs.mapM df.numCol with
    | error e => simp only [h2, errBind]
    | ok mat =>
      simp only [h2, okBind]
      cases h3 : mat.mapM fitScaler with
      | error e => simp only [h3, errBind]
      | ok rss =>
        simp only [h3, okBind]
        cases h4 : df.numCol "rolling_volatility" with
        | error e => simp only [h4, errBind]
        | ok tvals =>
          simp only [h4, okBind]
          cases h5 : fitScaler tvals with
          | error e => simp only [h5, errBind]
          | ok ts =>
            simp only [h5, okBind,
              show categorical_inputs = ["STOCK"] from rfl,
              List.mapM_cons, List.mapM_nil]
            cases h6 : df.getColE "STOCK" with
            | error e => simp [h6, errBind]
            | ok svs => simp [h6, okBind, errBind, pure, Except.pure]

/-- `set_scalers` ignores the prior formatter state entirely: every stateful
attribute is overwritten. -/
theorem set_scalers_state_independent (fm₁ fm₂ : Formatter) (df : Table ℚ) :
    set_scalers fm₁ df = set_scalers fm₂ df := rfl

theorem Table.toR_rows_length (t : Table ℚ) : t.toR.rows.length = t.rows.length := by
  simp [Table.toR]

theorem Table.toR_WF (t : Table ℚ) (h : t.WF) : t.toR.WF := by
  refine ⟨h.1, ?_⟩
  intro r hr
  simp only [Table.toR, List.mem_map] at hr
  obtain ⟨r₀, hr₀, rfl⟩ := hr
  simpa using h.2 r₀ hr₀

/-! ### Closed form of `transform_inputs` on a calibrated formatter -/

/-- When both scaler attributes are set, every needed column is present and
numeric, and every stringified categorical value was seen at fit time,
`transform_inputs` succeeds and produces exactly: the copied frame with the
real-input columns standardised and the `STOCK` column label-encoded. -/
theorem transform_inputs_eq (fm : Formatter) (df : Table ℚ) (rss : List Scaler)
    (cs : List (String × List String)) (mat : List (List ℚ)) (svs : List (Value ℚ))
    (classes : List String)
    (hr : fm.real_scalers = some rss)
    (hc : fm.cat_scalers = some cs)
    (hmat : real_inputs.mapM df.numCol = .ok mat)
    (hlen : mat.length = rss.length)
    (hstock : df.getColE "STOCK" = .ok svs)
    (hfind : cs.find? (fun p => p.1 = "STOCK") = some ("STOCK", classes))
    (hseen : ∀ v ∈ svs.map Value.pyStr, v ∈ classes) :
    transform_inputs fm df = .ok
      ((df.toR.setCols (real_inputs.zip ((rss.zip mat).map
          (fun p => p.2.map (fun (v : ℚ) => Value.num (p.1.tfm (v : ℝ))))))).setCol "STOCK"
        ((svs.map Value.pyStr).map (fun v => Value.num ((classes.indexOf v : ℕ) : ℝ)))) := by
  unfold transform_inputs
  simp only [hr, hc]
  rw [if_neg (by simp)]
  simp only [pure, Except.pure, okBind, hmat]
  rw [if_neg (by omega)]
  simp only [show categorical_inputs = ["STOCK"] from rfl,
    List.foldlM_cons, List.foldlM_nil, hstock, okBind, hfind]
  simp only [labelTransform, if_pos hseen, okBind, pure, Except.pure]
  simp only [List.map_map]
  rfl

/-! ### Inversion of `split_data` -/

theorem split_data_inv (fm fm' : Formatter) (df : Table ℚ) (vb tb : ℚ)
    (e1 e2 e3 : Except PyError (Table ℝ))
    (h : split_data fm df vb tb = .ok (fm', e1, e2, e3)) :
    ∃ tr va te,
      filterByDay df (fun d => decide (d < vb)) = .ok tr ∧
      filterByDay df (fun d => decide (vb ≤ d ∧ d < tb)) = .ok va ∧
      filterByDay df (fun d => decide (tb ≤ d)) = .ok te ∧
      set_scalers fm tr = .ok fm' ∧
      e1 = transform_inputs fm' tr ∧ e2 = transform_inputs fm' va ∧
      e3 = transform_inputs fm' te := by
  unfold split_data at h
  cases h1 : filterByDay df (fun d => decide (d < vb)) with
  | error e => rw [h1] at h; simp [errBind] at h
  | ok tr =>
    rw [h1, okBind] at h
    cases h2 : filterByDay df (fun d => decide (vb ≤ d ∧ d < tb)) with
    | error e => rw [h2] at h; simp [errBind] at h
    | ok va =>
      rw [h2, okBind] at h
      cases h3 : filterByDay df (fun d => decide (tb ≤ d)) with
      | error e => rw [h3] at h; simp [errBind] at h
      | ok te =>
        rw [h3, okBind] at h
        cases h4 : set_scalers fm tr with
        | error e => rw [h4] at h; simp [errBind] at h
        | ok fm₀ =>
          rw [h4, okBind] at h
          simp only [pure, Except.pure, Except.ok.injEq, Prod.mk.injEq] at h
          obtain ⟨hfm, he1, he2, he3⟩ := h
          subst hfm
          exact ⟨tr, va, te, rfl, rfl, rfl, h4 ▸ rfl, he1.symm, he2.symm, he3.symm⟩

/-! ### Scaler algebra -/

theorem Scaler.scale_ne_zero (s : Scaler) : s.scale ≠ 0 := by
  unfold Scaler.scale
  by_cases h : Real.sqrt (s.var : ℝ) = 0
  · rw [if_pos h]; exact one_ne_zero
  · rw [if_neg h]; exact h

/-- Round trip through the standard scaler: the inverse transform undoes the
transform exactly (the handled scale is never zero). -/
theorem Scaler.itfm_tfm (s : Scaler) (v : ℝ) : s.itfm (s.tfm v) = v := by
  unfold Scaler.itfm Scaler.tfm
  rw [div_mul_cancel₀ _ (Scaler.scale_ne_zero s)]
  ring

theorem Scaler.tfm_itfm (s : Scaler) (v : ℝ) : s.tfm (s.itfm v) = v := by
  unfold Scaler.itfm Scaler.tfm
  rw [add_sub_cancel_right, mul_div_cancel_right₀ _ (Scaler.scale_ne_zero s)]

/-! ### More `Except` plumbing -/

theorem mapM_ok_forall₂ {ε α β : Type} (f : α → Except ε β) (l : List α)
    (ys : List β) (h : l.mapM f = .ok ys) :
    List.Forall₂ (fun a y => f a = .ok y) l ys := by
  induction l generalizing ys with
  | nil =>
      simp only [List.mapM_nil, pure, Except.pure, Except.ok.injEq] at h
      subst h; exact List.Forall₂.nil
  | cons a l' ih =>
      rw [List.mapM_cons] at h
      cases h1 : f a with
      | error e => rw [h1] at h; simp [errBind] at h
      | ok b =>
          rw [h1, okBind] at h
          cases h2 : l'.mapM f with
          | error e => rw [h2] at h; simp [errBind] at h
          | ok bs =>
              rw [h2, okBind] at h
              simp only [pure, Except.pure, Except.ok.injEq] at h
              subst h
              exact List.Forall₂.cons h1 (ih bs h2)

theorem numCol_inv (t : Table ℚ) (c : String) (qs : List ℚ)
    (h : t.numCol c = .ok qs) :
    ∃ vs, t.getColE c = .ok vs ∧ colToQ vs = .ok qs := by
  unfold Table.numCol at h
  cases h1 : t.getColE c with
  | error e => rw [h1] at h; simp [errBind] at h
  | ok vs => rw [h1, okBind] at h; exact ⟨vs, rfl, h⟩

theorem numCol_length (t : Table ℚ) (c : String) (qs : List ℚ)
    (h : t.numCol c = .ok qs) : qs.length = t.rows.length := by
  obtain ⟨vs, h1, h2⟩ := numCol_inv t c qs h
  rw [colToQ_length vs qs h2]
  exact Table.getColE_length t c vs h1

theorem numCol_mem (t : Table ℚ) (c : String) (qs : List ℚ)
    (h : t.numCol c = .ok qs) : c ∈ t.cols := by
  obtain ⟨vs, h1, _⟩ := numCol_inv t c qs h
  exact Table.getColE_mem t c vs h1

/-! ### The `format_predictions` loop -/

/-- If every column name in the list is reserved, the loop changes nothing
(and in particular never consults the target scaler). -/
theorem foldlM_fpStep_reserved (fm : Formatter) (P : Table ℚ) (L : List String)
    (acc : Table ℝ) (hres : ∀ c ∈ L, c = "forecast_time" ∨ c = "identifier") :
    L.foldlM (fpStep fm P) acc = .ok acc := by
  induction L generalizing acc with
  | nil => rfl
  | cons c L' ih =>
      rw [List.foldlM_cons,
        show fpStep fm P acc c = pure acc from by
          simp [fpStep, if_pos (hres c (by simp))]]
      rw [show (pure acc : Except PyError (Table ℝ)) = Except.ok acc from rfl, okBind]
      exact ih acc (fun c hc => hres c (by simp [hc]))

/-- With an unset target scaler, the loop raises `AttributeError` as soon as
it reaches a non-reserved column. -/
theorem foldlM_fpStep_none (fm : Formatter) (P : Table ℚ) (L : List String)
    (acc : Table ℝ) (hnone : fm.target_scaler = none)
    (hex : ∃ c ∈ L, ¬(c = "forecast_time" ∨ c = "identifier")) :
    L.foldlM (fpStep fm P) acc
      = .error (.attributeError "NoneType object has no attribute inverse_transform") := by
  induction L generalizing acc with
  | nil => simp at hex
  | cons c L' ih =>
      rw [List.foldlM_cons]
      by_cases hres : c = "forecast_time" ∨ c = "identifier"
      · rw [show fpStep fm P acc c = pure acc from by simp [fpStep, if_pos hres],
          show (pure acc : Except PyError (Table ℝ)) = Except.ok acc from rfl, okBind]
        apply ih acc
        obtain ⟨c₀, hc₀, hnr⟩ := hex
        rcases List.mem_cons.mp hc₀ with rfl | hmem
        · exact absurd hres hnr
        · exact ⟨c₀, hmem, hnr⟩
      · rw [show fpStep fm P acc c
            = .error (.attributeError "NoneType object has no attribute inverse_transform")
            from by
              simp [fpStep, if_neg hres, hnone, errBind, throw, throwThe,
                MonadExceptOf.throw, bind, Except.bind], errBind]

/-- Full specification of the `format_predictions` loop on a calibrated
formatter: it succeeds, preserves shape, leaves reserved and unlisted columns
untouched, and replaces every non-reserved listed column by its inverse
transform of the input frame's column. -/
theorem foldlM_fpStep_spec (fm : Formatter) (s : Scaler) (P : Table ℚ)
    (hsome : fm.target_scaler = some s) :
    ∀ (L : List String) (acc : Table ℝ),
    (∀ c ∈ L, c ∈ acc.cols) →
    acc.rows.length = P.rows.length →
    acc.WF →
    (∀ c ∈ L, ¬(c = "forecast_time" ∨ c = "identifier") →
        ∃ vs qs, P.getColE c = .ok vs ∧ colToQ vs = .ok qs) →
    ∃ out, L.foldlM (fpStep fm P) acc = .ok out ∧
      out.cols = acc.cols ∧ out.rows.length = acc.rows.length ∧ out.WF ∧
      (∀ c', (c' ∉ L ∨ c' = "forecast_time" ∨ c' = "identifier") →
          out.getColE c' = acc.getColE c') ∧
      (∀ c' ∈ L, ¬(c' = "forecast_time" ∨ c' = "identifier") →
          ∀ vs qs, P.getColE c' = .ok vs → colToQ vs = .ok qs →
          out.getColE c' = .ok (qs.map (fun (v : ℚ) => Value.num (s.itfm (v : ℝ))))) := by
  intro L
  induction L with
  | nil =>
      intro acc _ _ _ _
      exact ⟨acc, rfl, rfl, rfl, by assumption, fun _ _ => rfl, by simp⟩
  | cons c L' ih =>
      intro acc hsub hlen hWF hnum
      by_cases hres : c = "forecast_time" ∨ c = "identifier"
      · -- reserved head: skipped
        obtain ⟨out, hfold, hcols, hlen', hWF', huntouched, hwritten⟩ :=
          ih acc (fun x hx => hsub x (by simp [hx])) hlen hWF
            (fun x hx hnr => hnum x (by simp [hx]) hnr)
        refine ⟨out, ?_, hcols, hlen', hWF', ?_, ?_⟩
        · rw [List.foldlM_cons,
            show fpStep fm P acc c = pure acc from by simp [fpStep, if_pos hres],
            show (pure acc : Except PyError (Table ℝ)) = Except.ok acc from rfl, okBind]
          exact hfold
        · intro c' hc'
          apply huntouched
          rcases hc' with hc' | hc'
          · exact Or.inl (fun hmem => hc' (by simp [hmem]))
          · exact Or.inr hc'
        · intro c' hc' hnr vs qs hvs hqs
          rcases List.mem_cons.mp hc' with rfl | hmem
          · exact absurd hres hnr
          · exact hwritten c' hmem hnr vs qs hvs hqs
      · -- non-reserved head: overwritten with the inverse transform
        obtain ⟨vs, qs, hvs, hqs⟩ := hnum c (by simp) hres
        have hcacc : c ∈ acc.cols := hsub c (by simp)
        have hmaplen : (qs.map (fun (v : ℚ) => Value.num (s.itfm (v : ℝ)))).length
            = acc.rows.length := by
          rw [List.length_map, colToQ_length vs qs hqs,
            Table.getColE_length P c vs hvs, hlen]
        have hstep : fpStep fm P acc c
            = .ok (acc.setCol c (qs.map (fun (v : ℚ) => Value.num (s.itfm (v : ℝ))))) := by
          simp only [fpStep, if_neg hres, hsome, okBind, hvs, hqs, bind, Except.bind]
          rfl
        set acc' := acc.setCol c (qs.map (fun (v : ℚ) => Value.num (s.itfm (v : ℝ)))) with hacc'
        have hcols' : acc'.cols = acc.cols := Table.setCol_cols acc c _ hcacc
        have hlen'' : acc'.rows.length = acc.rows.length :=
          Table.setCol_rows_length acc c _ hcacc hmaplen
        have hWF'' : acc'.WF := Table.setCol_WF acc c _ hcacc hWF
        obtain ⟨out, hfold, hcols2, hlen2, hWF2, huntouched, hwritten⟩ :=
          ih acc' (fun x hx => by rw [hcols']; exact hsub x (by simp [hx]))
            (by rw [hlen'']; exact hlen) hWF''
            (fun x hx hnr => hnum x (by simp [hx]) hnr)
        refine ⟨out, ?_, by rw [hcols2, hcols'], by rw [hlen2, hlen''], hWF2, ?_, ?_⟩
        · rw [List.foldlM_cons, hstep, okBind]
          exact hfold
        · intro c' hc'
          have hc'ne : c' ≠ c := by
            rintro rfl
            rcases hc' with hc' | hc'
            · exact hc' (by simp)
            · exact hres hc'
          have h1 : out.getColE c' = acc'.getColE c' := by
            apply huntouched
            rcases hc' with hc' | hc'
            · exact Or.inl (fun hmem => hc' (by simp [hmem]))
            · exact Or.inr hc'
          rw [h1, hacc']
          exact Table.getColE_setCol_ne acc c c' _ hcacc hc'ne hmaplen
        · intro c' hc' hnr vs' qs' hvs' hqs'
          by_cases hmem : c' ∈ L'
          · exact hwritten c' hmem hnr vs' qs' hvs' hqs'
          · have hceq : c' = c := by
              rcases List.mem_cons.mp hc' with rfl | h2
              · rfl
              · exact absurd h2 hmem
            subst hceq
            have h1 : out.getColE c' = acc'.getColE c' :=
              huntouched c' (Or.inl hmem)
            have hvseq : vs' = vs := by
              have := hvs ▸ hvs'
              exact (Except.ok.inj this.symm)
            subst hvseq
            have hqseq : qs' = qs := by
              have := hqs ▸ hqs'
              exact (Except.ok.inj this.symm)
            subst hqseq
            rw [h1, hacc']
            exact Table.getColE_setCol_same acc c' _ hcacc hWF hmaplen

/-! ### `pandas.Series.unique` (first-appearance distinct list) -/

theorem foldl_uniqueAux_mem {α : Type} [DecidableEq α] (l : List α) :
    ∀ (acc : List α) (v : α),
    (v ∈ l.foldl (fun acc v => if v ∈ acc then acc else acc ++ [v]) acc)
      ↔ v ∈ acc ∨ v ∈ l := by
  induction l with
  | nil => simp
  | cons a l' ih =>
      intro acc v
      rw [List.foldl_cons]
      by_cases h : a ∈ acc
      · rw [if_pos h, ih]
        simp only [List.mem_cons]
        constructor
        · rintro (h1 | h1) <;> tauto
        · rintro (h1 | rfl | h1)
          · tauto
          · exact Or.inl h
          · tauto
      · rw [if_neg h, ih]
        simp only [List.mem_append, List.mem_singleton, List.mem_cons]
        tauto

theorem foldl_uniqueAux_nodup {α : Type} [DecidableEq α] (l : List α) :
    ∀ (acc : List α), acc.Nodup →
    (l.foldl (fun acc v => if v ∈ acc then acc else acc ++ [v]) acc).Nodup := by
  induction l with
  | nil => intro acc h; simpa using h
  | cons a l' ih =>
      intro acc hacc
      rw [List.foldl_cons]
      by_cases h : a ∈ acc
      · rw [if_pos h]; exact ih acc hacc
      · rw [if_neg h]
        apply ih
        simp [List.nodup_append, hacc, h]

theorem indexOf_append_notMem {α : Type} [DecidableEq α] (a : α) (l l' : List α)
    (h : a ∉ l) : (l ++ l').indexOf a = l.length + l'.indexOf a := by
  induction l with
  | nil => simp
  | cons b l₀ ih =>
      have hba : b ≠ a := fun hh => h (by simp [hh])
      have ha : a ∉ l₀ := fun hh => h (by simp [hh])
      rw [List.cons_append, List.indexOf_cons_ne _ hba, ih ha]
      simp [Nat.succ_add]

theorem foldl_uniqueAux_pairwise {α : Type} [DecidableEq α] (col : List α) :
    ∀ (rest done acc : List α),
    col = done ++ rest →
    (∀ v, v ∈ acc ↔ v ∈ done) →
    List.Pairwise (fun a b => col.indexOf a < col.indexOf b) acc →
    (∀ a ∈ acc, col.indexOf a < done.length) →
    List.Pairwise (fun a b => col.indexOf a < col.indexOf b)
      (rest.foldl (fun acc v => if v ∈ acc then acc else acc ++ [v]) acc) := by
  intro rest
  induction rest with
  | nil =>
      intro done acc _ _ h3 _
      simpa using h3
  | cons v rest' ih =>
      intro done acc hcol hmem hpw hbound
      rw [List.foldl_cons]
      by_cases hv : v ∈ acc
      · rw [if_pos hv]
        apply ih (done ++ [v]) acc
        · rw [hcol]; simp
        · intro w
          rw [hmem]
          constructor
          · intro hw; simp [hw]
          · intro hw
            rcases List.mem_append.mp hw with h1 | h1
            · exact h1
            · simp at h1; subst h1; exact (hmem w).mp hv
        · exact hpw
        · intro a ha
          have := hbound a ha
          simp only [List.length_append, List.length_singleton]
          omega
      · rw [if_neg hv]
        have hvdone : v ∉ done := fun hh => hv ((hmem v).mpr hh)
        have hidxv : col.indexOf v = done.length := by
          rw [hcol, indexOf_append_notMem v done _ hvdone]
          simp [List.indexOf_cons_self]
        apply ih (done ++ [v]) (acc ++ [v])
        · rw [hcol]; simp
        · intro w
          simp only [List.mem_append, List.mem_singleton, hmem]
        · rw [List.pairwise_append]
          refine ⟨hpw, List.pairwise_singleton _ _, ?_⟩
          intro a ha b hb
          simp only [List.mem_singleton] at hb
          subst hb
          have h1 : col.indexOf a < done.length := hbound a ha
          omega
        · intro a ha
          rcases List.mem_append.mp ha with h1 | h1
          · have := hbound a h1
            simp only [List.length_append, List.length_singleton]
            omega
          · simp only [List.mem_singleton] at h1
            subst h1
            simp only [List.length_append, List.length_singleton]
            omega

theorem uniqueFirst_mem {α : Type} [DecidableEq α] (l : List α) (v : α) :
    v ∈ uniqueFirst l ↔ v ∈ l := by
  unfold uniqueFirst
  rw [foldl_uniqueAux_mem]
  simp

theorem uniqueFirst_nodup {α : Type} [DecidableEq α] (l : List α) :
    (uniqueFirst l).Nodup := by
  unfold uniqueFirst
  exact foldl_uniqueAux_nodup l [] List.nodup_nil

/-- Elements of `uniqueFirst l` are ordered by the position of their first
occurrence in `l` (`List.indexOf` is exactly the first-occurrence index). -/
theorem uniqueFirst_pairwise {α : Type} [DecidableEq α] (l : List α) :
    List.Pairwise (fun a b => l.indexOf a < l.indexOf b) (uniqueFirst l) := by
  unfold uniqueFirst
  apply foldl_uniqueAux_pairwise l l [] []
  · rfl
  · simp
  · exact List.Pairwise.nil
  · simp

/-! ### Determinism of the label encoder -/

theorem list_toFinset_dedup {α : Type} [DecidableEq α] (l : List α) :
    l.dedup.toFinset = l.toFinset :=
  Finset.ext fun a => by simp [List.mem_toFinset, List.mem_dedup]

/-- `numpy.unique` (hence `LabelEncoder.fit`) is a function of the distinct
label set alone. -/
theorem labelFit_eq_of_toFinset_eq (l₁ l₂ : List String)
    (h : l₁.toFinset = l₂.toFinset) : labelFit l₁ = labelFit l₂ := by
  unfold labelFit
  have hperm : List.Perm (l₁.dedup.insertionSort (· ≤ ·))
      (l₂.dedup.insertionSort (· ≤ ·)) :=
    (List.perm_insertionSort _ _).trans
      ((List.perm_of_nodup_nodup_toFinset_eq (List.nodup_dedup l₁)
          (List.nodup_dedup l₂)
          (by rw [list_toFinset_dedup, list_toFinset_dedup, h])).trans
        (List.perm_insertionSort (· ≤ ·) l₂.dedup).symm)
  exact List.eq_of_perm_of_sorted hperm
    (List.sorted_insertionSort (· ≤ ·) l₁.dedup)
    (List.sorted_insertionSort (· ≤ ·) l₂.dedup)

/-- `Series.nunique` is likewise a function of the distinct label set. -/
theorem dedup_length_eq_of_toFinset_eq {α : Type} [DecidableEq α]
    (l₁ l₂ : List α) (h : l₁.toFinset = l₂.toFinset) :
    l₁.dedup.length = l₂.dedup.length := by
  rw [← List.card_toFinset, ← List.card_toFinset, h]

/-! ### Inversions of the calibration and filter pipelines -/

theorem set_scalers_inv (fm fm' : Formatter) (df : Table ℚ)
    (h : set_scalers fm df = .ok fm') :
    ∃ idvals mat tvals svs,
      df.getColE "id" = .ok idvals ∧
      real_inputs.mapM df.numCol = .ok mat ∧ (∀ l ∈ mat, l ≠ []) ∧
      df.numCol "rolling_volatility" = .ok tvals ∧ tvals ≠ [] ∧
      df.getColE "STOCK" = .ok svs ∧
      fm' = { identifiers := some (uniqueFirst idvals),
              real_scalers := some (mat.map (fun l => Scaler.mk (meanQ l) (varQ l))),
              cat_scalers := some [("STOCK", labelFit (svs.map Value.pyStr))],
              target_scaler := some (Scaler.mk (meanQ tvals) (varQ tvals)),
              num_classes_per_cat_input
                := some [(svs.map Value.pyStr).dedup.length] } := by
  rw [set_scalers_eq] at h
  cases h1 : df.getColE "id" with
  | error e => rw [h1] at h; simp [errBind] at h
  | ok idvals =>
    rw [h1, okBind] at h
    cases h2 : real_inputs.mapM df.numCol with
    | error e => rw [h2] at h; simp [errBind] at h
    | ok mat =>
      rw [h2, okBind] at h
      cases h3 : mat.mapM fitScaler with
      | error e => rw [h3] at h; simp [errBind] at h
      | ok rss =>
        rw [h3, okBind] at h
        cases h4 : df.numCol "rolling_volatility" with
        | error e => rw [h4] at h; simp [errBind] at h
        | ok tvals =>
          rw [h4, okBind] at h
          cases h5 : fitScaler tvals with
          | error e => rw [h5] at h; simp [errBind] at h
          | ok ts =>
            rw [h5, okBind] at h
            cases h6 : df.getColE "STOCK" with
            | error e => rw [h6] at h; simp [errBind] at h
            | ok svs =>
              rw [h6, okBind] at h
              obtain ⟨hmat, hrss⟩ := mapM_fitScaler_ok mat rss h3
              obtain ⟨htv, hts⟩ := fitScaler_ok tvals ts h5
              simp only [pure, Except.pure, Except.ok.injEq] at h
              exact ⟨idvals, mat, tvals, svs, rfl, rfl, hmat, rfl, htv, rfl,
                by rw [← h, hrss, hts]⟩

theorem filterByDay_inv (df : Table ℚ) (p : ℚ → Bool) (tr : Table ℚ)
    (h : filterByDay df p = .ok tr) :
    ∃ dvs ds, df.getColE "DAY" = .ok dvs ∧ colToQ dvs = .ok ds ∧
      tr = ⟨df.cols, ((df.rows.zip ds).filter (fun rd => p rd.2)).map Prod.fst⟩ := by
  unfold filterByDay at h
  cases h1 : df.getColE "DAY" with
  | error e => rw [h1] at h; simp [errBind] at h
  | ok dvs =>
    rw [h1, okBind] at h
    cases h2 : colToQ dvs with
    | error e => rw [h2] at h; simp [errBind] at h
    | ok ds =>
      rw [h2, okBind] at h
      simp only [pure, Except.pure, Except.ok.injEq] at h
      exact ⟨dvs, ds, rfl, h2, h.symm⟩

/-- Error form of the transform: a stringified categorical value that the
encoder has not seen makes the whole transform raise. -/
theorem transform_inputs_unseen (fm : Formatter) (df : Table ℚ)
    (rss : List Scaler) (cs : List (String × List String)) (mat : List (List ℚ))
    (svs : List (Value ℚ)) (classes : List String)
    (hr : fm.real_scalers = some rss)
    (hc : fm.cat_scalers = some cs)
    (hmat : real_inputs.mapM df.numCol = .ok mat)
    (hlen : mat.length = rss.length)
    (hstock : df.getColE "STOCK" = .ok svs)
    (hfind : cs.find? (fun p => p.1 = "STOCK") = some ("STOCK", classes))
    (hunseen : ¬ ∀ v ∈ svs.map Value.pyStr, v ∈ classes) :
    transform_inputs fm df
      = .error (.valueError "y contains previously unseen labels") := by
  unfold transform_inputs
  simp only [hr, hc]
  rw [if_neg (by simp)]
  simp only [pure, Except.pure, okBind, hmat]
  rw [if_neg (by omega)]
  simp only [show categorical_inputs = ["STOCK"] from rfl,
    List.foldlM_cons, List.foldlM_nil, hstock, okBind, hfind]
  simp only [labelTransform, if_neg hunseen, errBind]

/-- Positional reading of a successful `mapM` over the real-input columns. -/
theorem mat_mem_facts (df : Table ℚ) (mat : List (List ℚ))
    (hmat : real_inputs.mapM df.numCol = .ok mat) :
    ∀ l ∈ mat, ∃ c ∈ real_inputs, df.numCol c = .ok l := by
  have hf := mapM_ok_forall₂ df.numCol real_inputs mat hmat
  intro l hl
  obtain ⟨i, hi, rfl⟩ := List.mem_iff_getElem.mp hl
  rw [List.forall₂_iff_get] at hf
  obtain ⟨hlen, hrel⟩ := hf
  have hi' : i < real_inputs.length := by omega
  refine ⟨real_inputs[i], List.getElem_mem hi', ?_⟩
  simpa using hrel i hi' hi

/-- Mirror of `mat_mem_facts`: every real-input column has a successful
numeric read landing in `mat`. -/
theorem real_inputs_facts (df : Table ℚ) (mat : List (List ℚ))
    (hmat : real_inputs.mapM df.numCol = .ok mat) :
    ∀ c ∈ real_inputs, ∃ qs ∈ mat, df.numCol c = .ok qs := by
  have hf := mapM_ok_forall₂ df.numCol real_inputs mat hmat
  rw [List.forall₂_iff_get] at hf
  obtain ⟨hlen, hrel⟩ := hf
  intro c hc
  obtain ⟨i, hi, rfl⟩ := List.mem_iff_getElem.mp hc
  have hi' : i < mat.length := by omega
  refine ⟨mat[i], List.getElem_mem hi', ?_⟩
  simpa using hrel i hi hi'

/-- Central success lemma: transforming any well-formed frame with a
formatter calibrated by `set_scalers` succeeds (when the needed columns are
present, numeric, and all stringified stock labels were seen), and the output
reads back as: untouched columns pass through, the `j`-th real-input column
is standardised with the `j`-th stored scaler, and `STOCK` holds the label
codes. -/
theorem transform_after_calibration (fm fm' : Formatter) (cal df : Table ℚ)
    (mat : List (List ℚ)) (svs : List (Value ℚ)) (classes : List String)
    (rss : List Scaler)
    (hset : set_scalers fm cal = .ok fm')
    (hrss : fm'.real_scalers = some rss)
    (hcls : fm'.cat_scalers = some [("STOCK", classes)])
    (hWF : df.WF)
    (hmat : real_inputs.mapM df.numCol = .ok mat)
    (hstock : df.getColE "STOCK" = .ok svs)
    (hseen : ∀ v ∈ svs.map Value.pyStr, v ∈ classes) :
    ∃ out, transform_inputs fm' df = .ok out ∧
      out.cols = df.cols ∧ out.rows.length = df.rows.length ∧
      (∀ c vs, c ∉ real_inputs → c ≠ "STOCK" →
          df.getColE c = .ok vs → out.getColE c = .ok (vs.map Value.toR)) ∧
      (∀ (j : ℕ) (hj : j < real_inputs.length) (qs : List ℚ) (sj : Scaler),
          df.numCol real_inputs[j] = .ok qs → rss[j]? = some sj →
          out.getColE real_inputs[j]
            = .ok (qs.map (fun (v : ℚ) => Value.num (sj.tfm (v : ℝ))))) ∧
      out.getColE "STOCK"
        = .ok ((svs.map Value.pyStr).map
            (fun v => Value.num ((classes.indexOf v : ℕ) : ℝ))) := by
  -- lengths of the stored scaler vector and of the fresh matrix
  obtain ⟨_, matc, _, _, _, hmatc, _, _, _, _, hfm⟩ := set_scalers_inv _ _ _ hset
  have hrsslen : rss.length = real_inputs.length := by
    have h1 : fm'.real_scalers
        = some (matc.map (fun l => Scaler.mk (meanQ l) (varQ l))) := by rw [hfm]
    have h2 := Option.some.inj ((hrss.symm).trans h1)
    rw [h2, List.length_map]
    exact mapM_length_ok _ _ _ hmatc
  have hmatlen : mat.length = real_inputs.length := mapM_length_ok _ _ _ hmat
  have hfind : ([("STOCK", classes)] : List (String × List String)).find?
      (fun p => p.1 = "STOCK") = some ("STOCK", classes) :=
    List.find?_cons_of_pos _ (by simp)
  have hout := transform_inputs_eq fm' df rss [("STOCK", classes)] mat svs classes
    hrss hcls hmat (by omega) hstock hfind hseen
  -- the written column data
  set scaled : List (List (Value ℝ)) := (rss.zip mat).map
    (fun p => p.2.map (fun (v : ℚ) => Value.num (p.1.tfm (v : ℝ)))) with hscaled
  set pairs : List (String × List (Value ℝ)) := real_inputs.zip scaled with hpairs
  set codes : List (Value ℝ) := (svs.map Value.pyStr).map
    (fun v => Value.num ((classes.indexOf v : ℕ) : ℝ)) with hcodes
  have hscaledlen : scaled.length = real_inputs.length := by
    rw [hscaled, List.length_map, List.length_zip]
    omega
  have hfstP : pairs.map Prod.fst = real_inputs := by
    rw [hpairs]
    exact List.map_fst_zip _ _ (by omega)
  have hmemP : ∀ p ∈ pairs, p.1 ∈ (df.toR).cols := by
    intro p hp
    have h1 : p.1 ∈ real_inputs := by
      rw [← hfstP]
      exact List.mem_map_of_mem Prod.fst hp
    obtain ⟨qs, _, hqs⟩ := real_inputs_facts df mat hmat p.1 h1
    exact numCol_mem df p.1 qs hqs
  have hmatrows : ∀ l ∈ mat, l.length = df.rows.length := by
    intro l hl
    obtain ⟨c, _, hc⟩ := mat_mem_facts df mat hmat l hl
    exact numCol_length df c l hc
  have hlenP : ∀ p ∈ pairs, p.2.length = (df.toR).rows.length := by
    intro p hp
    have h2 : p.2 ∈ scaled := (List.of_mem_zip hp).2
    rw [hscaled] at h2
    obtain ⟨q, hq, hq2⟩ := List.mem_map.mp h2
    have h3 : q.2 ∈ mat := (List.of_mem_zip hq).2
    rw [← hq2, List.length_map, Table.toR_rows_length]
    exact hmatrows q.2 h3
  have hnodupP : (pairs.map Prod.fst).Nodup := by
    rw [hfstP]; decide
  have hWFR : (df.toR).WF := Table.toR_WF df hWF
  have hstockmem : "STOCK" ∈ df.cols := Table.getColE_mem df _ svs hstock
  have hmidcols : ((df.toR).setCols pairs).cols = df.cols :=
    Table.setCols_cols _ pairs hmemP
  have hstockmid : "STOCK" ∈ ((df.toR).setCols pairs).cols := by
    rw [hmidcols]; exact hstockmem
  have hmidrows : ((df.toR).setCols pairs).rows.length = df.rows.length := by
    rw [Table.setCols_rows_length _ pairs hmemP hlenP, Table.toR_rows_length]
  have hmidWF : ((df.toR).setCols pairs).WF := Table.setCols_WF _ pairs hmemP hWFR
  have hcodeslen : codes.length = ((df.toR).setCols pairs).rows.length := by
    rw [hcodes, List.length_map, List.length_map, hmidrows]
    exact Table.getColE_length df _ svs hstock
  refine ⟨_, hout, ?_, ?_, ?_, ?_, ?_⟩
  · rw [Table.setCol_cols _ _ _ hstockmid, hmidcols]
  · rw [Table.setCol_rows_length _ _ _ hstockmid hcodeslen, hmidrows]
  · -- pass-through columns
    intro c vs hcr hcs hvs
    rw [Table.getColE_setCol_ne _ _ _ _ hstockmid hcs hcodeslen,
      Table.getColE_setCols_notMem _ pairs c hmemP hlenP (by rw [hfstP]; exact hcr)]
    exact Table.getColE_toR df c vs hvs
  · -- standardised real-input columns
    intro j hj qs sj hq hsj
    have hcne : real_inputs[j] ≠ "STOCK" := by
      have h1 : real_inputs[j] ∈ real_inputs := List.getElem_mem hj
      have h2 : "STOCK" ∉ real_inputs := by decide
      intro he
      rw [he] at h1
      exact h2 h1
    rw [Table.getColE_setCol_ne _ _ _ _ hstockmid hcne hcodeslen]
    -- the pair written at position j
    have hjsc : j < scaled.length := by omega
    have hjmat : j < mat.length := by omega
    have hjrss : j < rss.length := by omega
    have hjp : j < pairs.length := by
      rw [hpairs, List.length_zip]
      omega
    have hjpair : pairs[j] = (real_inputs[j], scaled[j]) := by
      simp only [hpairs, List.getElem_zip]
    have hmempair : (real_inputs[j], scaled[j]) ∈ pairs := by
      rw [← hjpair]
      exact List.getElem_mem hjp
    rw [Table.getColE_setCols_mem _ pairs _ _ hmemP hlenP hnodupP hmempair hWFR]
    -- identify the written data with the claimed transform
    have hjz : j < (rss.zip mat).length := by
      rw [List.length_zip]; omega
    have hscj : scaled[j]
        = (mat[j]).map
            (fun (v : ℚ) => Value.num ((rss[j]).tfm (v : ℝ))) := by
      simp only [hscaled, List.getElem_map, List.getElem_zip]
    have hqj : df.numCol real_inputs[j] = .ok mat[j] := by
      have hf := mapM_ok_forall₂ df.numCol real_inputs mat hmat
      rw [List.forall₂_iff_get] at hf
      simpa using hf.2 j hj (by omega)
    obtain rfl : qs = mat[j] := Except.ok.inj (hq.symm.trans hqj)
    have hsj₂ : sj = rss[j] := by
      rw [List.getElem?_eq_some] at hsj
      obtain ⟨h1, h2⟩ := hsj
      exact h2.symm
    rw [hscj, hsj₂]
  · -- the label-encoded STOCK column
    rw [hcodes] at hcodeslen ⊢
    exact Table.getColE_setCol_same _ _ _ hstockmid hmidWF hcodeslen

/-! ### Concrete calibrations -/

theorem set_scalers_T0 : set_scalers Formatter.init T0 = .ok fmT0 := by
  norm_num +decide [set_scalers_eq, T0, fmT0, wCols, wRow, wRowS, Table.getColE,
    Table.numCol, colToQ, getCell, uniqueFirst, meanQ, varQ, fitScaler, labelFit,
    Value.pyStr, real_inputs, categorical_inputs, extract_cols_from_data_type,
    get_column_definition, column_definition, List.mapM_cons, List.mapM_nil,
    List.mapM, List.mapM.loop, List.reverse, List.reverseAux,
    bind, Except.bind, pure, Except.pure, List.dedup, List.insertionSort,
    List.orderedInsert]

theorem set_scalers_T4tr : set_scalers Formatter.init T4tr = .ok fmT0 := by
  norm_num +decide [set_scalers_eq, T4tr, fmT0, wCols, wRow, wRowS, Table.getColE,
    Table.numCol, colToQ, getCell, uniqueFirst, meanQ, varQ, fitScaler, labelFit,
    Value.pyStr, real_inputs, categorical_inputs, extract_cols_from_data_type,
    get_column_definition, column_definition, List.mapM_cons, List.mapM_nil,
    List.mapM, List.mapM.loop, List.reverse, List.reverseAux,
    bind, Except.bind, pure, Except.pure, List.dedup, List.insertionSort,
    List.orderedInsert]

theorem set_scalers_T4c : set_scalers Formatter.init T4c = .ok fmT4c := by
  norm_num +decide [set_scalers_eq, T4c, fmT4c, wCols, wRow, wRowS, Table.getColE,
    Table.numCol, colToQ, getCell, uniqueFirst, meanQ, varQ, fitScaler, labelFit,
    Value.pyStr, real_inputs, categorical_inputs, extract_cols_from_data_type,
    get_column_definition, column_definition, List.mapM_cons, List.mapM_nil,
    List.mapM, List.mapM.loop, List.reverse, List.reverseAux,
    bind, Except.bind, pure, Except.pure, List.dedup, List.insertionSort,
    List.orderedInsert]

theorem set_scalers_T9 : set_scalers Formatter.init T9 = .ok fmT9 := by
  norm_num +decide [set_scalers_eq, T9, fmT9, wCols, wRow, wRowS, Table.getColE,
    Table.numCol, colToQ, getCell, uniqueFirst, meanQ, varQ, fitScaler, labelFit,
    Value.pyStr, real_inputs, categorical_inputs, extract_cols_from_data_type,
    get_column_definition, column_definition, List.mapM_cons, List.mapM_nil,
    List.mapM, List.mapM.loop, List.reverse, List.reverseAux,
    bind, Except.bind, pure, Except.pure, List.dedup, List.insertionSort,
    List.orderedInsert]

theorem set_scalers_T10 : set_scalers Formatter.init T10 = .ok fmT10 := by
  norm_num +decide [set_scalers_eq, T10, fmT10, wCols, wRow, wRowS, Table.getColE,
    Table.numCol, colToQ, getCell, uniqueFirst, meanQ, varQ, fitScaler, labelFit,
    Value.pyStr, real_inputs, categorical_inputs, extract_cols_from_data_type,
    get_column_definition, column_definition, List.mapM_cons, List.mapM_nil,
    List.mapM, List.mapM.loop, List.reverse, List.reverseAux,
    bind, Except.bind, pure, Except.pure, List.dedup, List.insertionSort,
    List.orderedInsert]

/-- The stored real-scaler vector of a calibrated formatter has one entry per
real-input column. -/
theorem calibrated_rss_length (fm fm' : Formatter) (cal : Table ℚ)
    (rss : List Scaler) (hset : set_scalers fm cal = .ok fm')
    (hrss : fm'.real_scalers = some rss) : rss.length = real_inputs.length := by
  obtain ⟨_, matc, _, _, _, hmatc, _, _, _, _, hfm⟩ := set_scalers_inv _ _ _ hset
  have h1 : fm'.real_scalers
      = some (matc.map (fun l => Scaler.mk (meanQ l) (varQ l))) := by rw [hfm]
  have h2 := Option.some.inj ((hrss.symm).trans h1)
  rw [h2, List.length_map]
  exact mapM_length_ok _ _ _ hmatc

/-! ### The claims -/

/-- C3 (amended): on a freshly constructed formatter, `transform_inputs`
always fails with the state error `ValueError("Scalers have not been set!")`;
`format_predictions`, however, performs no calibration check: with any
non-reserved column present it fails with an `AttributeError` raised by the
unset (`None`) target scaler — not a state error — and when every column is
reserved it silently succeeds, returning the copied frame. -/
theorem claim_C3 :
    (∀ df : Table ℚ, transform_inputs Formatter.init df
        = .error (.valueError "Scalers have not been set!")) ∧
    (∀ p : Table ℚ, (∃ c ∈ p.cols, ¬(c = "forecast_time" ∨ c = "identifier")) →
        format_predictions Formatter.init p
          = .error (.attributeError "NoneType object has no attribute inverse_transform")) ∧
    (∀ p : Table ℚ, (∀ c ∈ p.cols, c = "forecast_time" ∨ c = "identifier") →
        format_predictions Formatter.init p = .ok p.toR) := by
  refine ⟨fun df => rfl, fun p hex => ?_, fun p hall => ?_⟩
  · unfold format_predictions
    exact foldlM_fpStep_none Formatter.init p p.cols p.toR rfl hex
  · unfold format_predictions
    exact foldlM_fpStep_reserved Formatter.init p p.cols p.toR hall

theorem claim_C3_witness :
    transform_inputs Formatter.init T0
      = .error (.valueError "Scalers have not been set!") ∧
    format_predictions Formatter.init Pbad
      = .error (.attributeError "NoneType object has no attribute inverse_transform") ∧
    format_predictions Formatter.init Pres = .ok Pres.toR :=
  ⟨claim_C3.1 T0,
   claim_C3.2.1 Pbad ⟨"p10", by decide, by decide⟩,
   claim_C3.2.2 Pres (by decide)⟩

/-- C3 counterexample to the claim as stated: on a freshly constructed
formatter, `format_predictions` of a frame whose columns are all reserved
does NOT fail — it produces output (the copied frame). -/
theorem claim_C3_counterexample :
    format_predictions Formatter.init Pres = .ok Pres.toR := by
  unfold format_predictions
  exact foldlM_fpStep_reserved Formatter.init Pres Pres.cols Pres.toR (by decide)

/-- C5 (confirmed): for a formatter calibrated on a table, applying the
target-scaler transform `(v - mean) / scale` and then the inverse transform
`value * scale + mean` used by `format_predictions` returns every target
value `v` used in calibration exactly (over the exact reals; the handled
scale is never zero). -/
theorem claim_C5 (fm fm' : Formatter) (df : Table ℚ) (s : Scaler)
    (tvals : List ℚ) (v : ℚ)
    (hset : set_scalers fm df = .ok fm')
    (hts : fm'.target_scaler = some s)
    (htv : df.numCol "rolling_volatility" = .ok tvals)
    (hv : v ∈ tvals) :
    s.itfm (s.tfm (v : ℝ)) = (v : ℝ) :=
  Scaler.itfm_tfm s (v : ℝ)

theorem claim_C5_witness :
    Scaler.itfm ⟨1, 1⟩ (Scaler.tfm ⟨1, 1⟩ ((0 : ℚ) : ℝ)) = ((0 : ℚ) : ℝ) :=
  claim_C5 Formatter.init fmT0 T0 ⟨1, 1⟩ [0, 2] 0 set_scalers_T0 rfl
    (by decide) (by decide)

/-- C9 (confirmed): calibration is deterministic on the categorical columns.
Whatever the prior formatter states, two `set_scalers` runs whose categorical
columns have the same set of distinct stringified labels produce identical
label-code mappings (`numpy.unique`, the sorted distinct labels, with the
code of a label its index in that sorted list) and identical `num_classes`
counts. -/
theorem claim_C9 (fm₁ fm₂ fm₁' fm₂' : Formatter) (df₁ df₂ : Table ℚ)
    (h₁ : set_scalers fm₁ df₁ = .ok fm₁') (h₂ : set_scalers fm₂ df₂ = .ok fm₂')
    (hsame : ∀ c ∈ categorical_inputs, ∀ vs₁ vs₂,
        df₁.getColE c = .ok vs₁ → df₂.getColE c = .ok vs₂ →
        (vs₁.map Value.pyStr).toFinset = (vs₂.map Value.pyStr).toFinset) :
    fm₁'.cat_scalers = fm₂'.cat_scalers ∧
    fm₁'.num_classes_per_cat_input = fm₂'.num_classes_per_cat_input := by
  obtain ⟨_, _, _, svs₁, _, _, _, _, _, hst₁, hfm₁⟩ := set_scalers_inv _ _ _ h₁
  obtain ⟨_, _, _, svs₂, _, _, _, _, _, hst₂, hfm₂⟩ := set_scalers_inv _ _ _ h₂
  have hfin := hsame "STOCK" (by decide) _ _ hst₁ hst₂
  subst hfm₁
  subst hfm₂
  exact ⟨by simp [labelFit_eq_of_toFinset_eq _ _ hfin],
         by simp [dedup_length_eq_of_toFinset_eq _ _ hfin]⟩

theorem claim_C9_witness :
    fmT0.cat_scalers = fmT9.cat_scalers ∧
    fmT0.num_classes_per_cat_input = fmT9.num_classes_per_cat_input :=
  claim_C9 Formatter.init Formatter.init fmT0 fmT9 T0 T9
    set_scalers_T0 set_scalers_T9
    (by
      intro c hc vs₁ vs₂ hv₁ hv₂
      have hc' : c = "STOCK" := by
        rw [show categorical_inputs = ["STOCK"] from rfl] at hc
        simpa using hc
      subst hc'
      rw [show T0.getColE "STOCK" = Except.ok [Value.vstr "A", Value.vstr "A"]
        from by decide] at hv₁
      rw [show T9.getColE "STOCK" = Except.ok [Value.vstr "A"] from by decide] at hv₂
      obtain rfl := Except.ok.inj hv₁
      obtain rfl := Except.ok.inj hv₂
      decide)

/-- C10 (confirmed): after calibration the `identifiers` attribute is the
list of distinct identifier-column values in order of first appearance: it
has no duplicates, contains exactly the column's values, and is sorted by
index of first occurrence in the column (`pandas.Series.unique`). -/
theorem claim_C10 (fm fm' : Formatter) (df : Table ℚ) (idvals : List (Value ℚ))
    (hset : set_scalers fm df = .ok fm')
    (hid : df.getColE "id" = .ok idvals) :
    ∃ l, fm'.identifiers = some l ∧ l.Nodup ∧ (∀ v, v ∈ l ↔ v ∈ idvals) ∧
      List.Pairwise (fun a b => idvals.indexOf a < idvals.indexOf b) l := by
  obtain ⟨idvals₀, _, _, _, hid₀, _, _, _, _, _, hfm⟩ := set_scalers_inv _ _ _ hset
  obtain rfl : idvals₀ = idvals := Except.ok.inj (hid₀.symm.trans hid)
  subst hfm
  exact ⟨uniqueFirst idvals₀, rfl, uniqueFirst_nodup _,
    fun v => uniqueFirst_mem _ _, uniqueFirst_pairwise _⟩

theorem claim_C10_witness :
    ∃ l, fmT10.identifiers = some l ∧ l.Nodup ∧
      (∀ v, v ∈ l ↔ v ∈ [Value.num (2 : ℚ), Value.num 1, Value.num 2]) ∧
      List.Pairwise
        (fun a b => [Value.num (2 : ℚ), Value.num 1, Value.num 2].indexOf a
          < [Value.num (2 : ℚ), Value.num 1, Value.num 2].indexOf b) l :=
  claim_C10 Formatter.init fmT10 T10 [.num 2, .num 1, .num 2]
    set_scalers_T10 (by decide)

/-- C8 (confirmed): `transform_inputs` of a calibrated formatter does not
mutate its input (the embedding is purely functional, matching the source,
which writes only to `df.copy()` and reads only from `df`) and returns a new
frame with exactly the input's column list and the input's row count. -/
theorem claim_C8 (fm fm' : Formatter) (cal df : Table ℚ)
    (mat : List (List ℚ)) (svs : List (Value ℚ)) (classes : List String)
    (rss : List Scaler)
    (hset : set_scalers fm cal = .ok fm')
    (hrss : fm'.real_scalers = some rss)
    (hcls : fm'.cat_scalers = some [("STOCK", classes)])
    (hWF : df.WF)
    (hmat : real_inputs.mapM df.numCol = .ok mat)
    (hstock : df.getColE "STOCK" = .ok svs)
    (hseen : ∀ v ∈ svs.map Value.pyStr, v ∈ classes) :
    ∃ out, transform_inputs fm' df = .ok out ∧
      out.cols = df.cols ∧ out.rows.length = df.rows.length := by
  obtain ⟨out, h1, h2, h3, _, _, _⟩ := transform_after_calibration fm fm' cal df
    mat svs classes rss hset hrss hcls hWF hmat hstock hseen
  exact ⟨out, h1, h2, h3⟩

theorem claim_C8_witness :
    ∃ out, transform_inputs fmT0 T0 = .ok out ∧
      out.cols = T0.cols ∧ out.rows.length = T0.rows.length :=
  claim_C8 Formatter.init fmT0 T0 T0
    [[0, 2], [0, 2], [0, 2], [0, 2], [0, 2], [0, 2], [0, 2]]
    [.vstr "A", .vstr "A"] ["A"]
    [⟨1, 1⟩, ⟨1, 1⟩, ⟨1, 1⟩, ⟨1, 1⟩, ⟨1, 1⟩, ⟨1, 1⟩, ⟨1, 1⟩]
    set_scalers_T0 rfl rfl (by decide) (by decide) (by decide) (by decide)

/-- C1 (amended): for a calibrated formatter, `transform_inputs` passes the
identifier and timestamp columns through unchanged, but — contrary to the
claim — the target column is NOT passed through: `rolling_volatility` is
real-valued and the exclusion set is only `{ID, TIME}`, so the target column
is standardised by the jointly fit real scaler (its 7th per-column
statistics) exactly like the other continuous features. -/
theorem claim_C1 (fm fm' : Formatter) (cal df : Table ℚ)
    (mat : List (List ℚ)) (svs idvals timevals : List (Value ℚ))
    (classes : List String) (rss : List Scaler) (tv : List ℚ) (st : Scaler)
    (hset : set_scalers fm cal = .ok fm')
    (hrss : fm'.real_scalers = some rss)
    (hcls : fm'.cat_scalers = some [("STOCK", classes)])
    (hWF : df.WF)
    (hmat : real_inputs.mapM df.numCol = .ok mat)
    (hstock : df.getColE "STOCK" = .ok svs)
    (hseen : ∀ v ∈ svs.map Value.pyStr, v ∈ classes)
    (hid : df.getColE "id" = .ok idvals)
    (htime : df.getColE "time" = .ok timevals)
    (htv : df.numCol "rolling_volatility" = .ok tv)
    (hst : rss[6]? = some st) :
    ∃ out, transform_inputs fm' df = .ok out ∧
      out.getColE "id" = .ok (idvals.map Value.toR) ∧
      out.getColE "time" = .ok (timevals.map Value.toR) ∧
      out.getColE "rolling_volatility"
        = .ok (tv.map (fun (v : ℚ) => Value.num (st.tfm (v : ℝ)))) := by
  obtain ⟨out, hok, _, _, hpass, hreal, _⟩ := transform_after_calibration fm fm'
    cal df mat svs classes rss hset hrss hcls hWF hmat hstock hseen
  refine ⟨out, hok,
    hpass "id" idvals (by decide) (by decide) hid,
    hpass "time" timevals (by decide) (by decide) htime, ?_⟩
  have h6 : (6 : ℕ) < real_inputs.length := by decide
  exact hreal 6 h6 tv st htv hst

theorem claim_C1_witness :
    ∃ out, transform_inputs fmT0 T0 = .ok out ∧
      out.getColE "id" = .ok ([Value.num (1 : ℚ), Value.num 1].map Value.toR) ∧
      out.getColE "time" = .ok ([Value.num (1 : ℚ), Value.num 2].map Value.toR) ∧
      out.getColE "rolling_volatility"
        = .ok (([0, 2] : List ℚ).map
            (fun (v : ℚ) => Value.num (Scaler.tfm ⟨1, 1⟩ (v : ℝ)))) :=
  claim_C1 Formatter.init fmT0 T0 T0
    [[0, 2], [0, 2], [0, 2], [0, 2], [0, 2], [0, 2], [0, 2]]
    [.vstr "A", .vstr "A"] [.num 1, .num 1] [.num 1, .num 2] ["A"]
    [⟨1, 1⟩, ⟨1, 1⟩, ⟨1, 1⟩, ⟨1, 1⟩, ⟨1, 1⟩, ⟨1, 1⟩, ⟨1, 1⟩] [0, 2] ⟨1, 1⟩
    set_scalers_T0 rfl rfl (by decide) (by decide) (by decide) (by decide)
    (by decide) (by decide) (by decide) (by decide)

/-- C1 counterexample to the claim as stated: calibrating on `T0` (target
column `[0, 2]`, so target statistics mean `1`, variance `1`) and
transforming `T0` itself changes the target column — the first target value
`0` becomes `(0 - 1) / 1 = -1`, so the output target column differs from the
input target column. -/
theorem claim_C1_counterexample :
    T0.getColE "rolling_volatility" = .ok [Value.num (0 : ℚ), Value.num 2] ∧
    ∃ out, transform_inputs fmT0 T0 = .ok out ∧
      out.getColE "rolling_volatility"
        ≠ .ok [Value.num ((0 : ℚ) : ℝ), Value.num ((2 : ℚ) : ℝ)] := by
  refine ⟨by decide, ?_⟩
  obtain ⟨out, hok, _, _, _, hreal, _⟩ := transform_after_calibration
    Formatter.init fmT0 T0 T0
    [[0, 2], [0, 2], [0, 2], [0, 2], [0, 2], [0, 2], [0, 2]]
    [.vstr "A", .vstr "A"] ["A"]
    [⟨1, 1⟩, ⟨1, 1⟩, ⟨1, 1⟩, ⟨1, 1⟩, ⟨1, 1⟩, ⟨1, 1⟩, ⟨1, 1⟩]
    set_scalers_T0 rfl rfl (by decide) (by decide) (by decide) (by decide)
  refine ⟨out, hok, ?_⟩
  have h6 := hreal 6 (by decide) [0, 2] ⟨1, 1⟩ (by decide) (by decide)
  intro hcontra
  have hx := Except.ok.inj ((h6.symm).trans hcontra)
  simp only [List.map_cons, List.map_nil] at hx
  have hy : Scaler.tfm ⟨1, 1⟩ ((0 : ℚ) : ℝ) = ((0 : ℚ) : ℝ) :=
    Value.num.inj (List.cons.inj hx).1
  have hz : Scaler.tfm ⟨1, 1⟩ ((0 : ℚ) : ℝ) = -1 := by
    unfold Scaler.tfm Scaler.scale
    norm_num [Real.sqrt_one]
  rw [hz] at hy
  norm_num at hy

/-- C7 (confirmed): for a calibrated formatter, `transform_inputs` raises the
unseen-label `ValueError` when any stringified categorical value is absent
from the calibrated classes — fatal, no silent default code — and when every
value is present, the categorical column is replaced by the integer codes
(each label's index in the sorted class list). -/
theorem claim_C7 (fm fm' : Formatter) (cal df : Table ℚ)
    (mat : List (List ℚ)) (svs : List (Value ℚ)) (classes : List String)
    (rss : List Scaler)
    (hset : set_scalers fm cal = .ok fm')
    (hrss : fm'.real_scalers = some rss)
    (hcls : fm'.cat_scalers = some [("STOCK", classes)])
    (hWF : df.WF)
    (hmat : real_inputs.mapM df.numCol = .ok mat)
    (hstock : df.getColE "STOCK" = .ok svs) :
    ((∃ v ∈ svs.map Value.pyStr, v ∉ classes) →
        transform_inputs fm' df
          = .error (.valueError "y contains previously unseen labels")) ∧
    ((∀ v ∈ svs.map Value.pyStr, v ∈ classes) →
        ∃ out, transform_inputs fm' df = .ok out ∧
          out.getColE "STOCK"
            = .ok ((svs.map Value.pyStr).map
                (fun v => Value.num ((classes.indexOf v : ℕ) : ℝ)))) := by
  have hlen : mat.length = rss.length := by
    have h1 := calibrated_rss_length fm fm' cal rss hset hrss
    have h2 := mapM_length_ok _ _ _ hmat
    omega
  constructor
  · rintro ⟨v, hv, hnv⟩
    refine transform_inputs_unseen fm' df rss [("STOCK", classes)] mat svs classes
      hrss hcls hmat hlen hstock (List.find?_cons_of_pos _ (by simp)) ?_
    intro hall
    exact hnv (hall v hv)
  · intro hseen
    obtain ⟨out, hok, _, _, _, _, hstk⟩ := transform_after_calibration fm fm'
      cal df mat svs classes rss hset hrss hcls hWF hmat hstock hseen
    exact ⟨out, hok, hstk⟩

theorem claim_C7_witness :
    transform_inputs fmT0 T7
      = .error (.valueError "y contains previously unseen labels") ∧
    ∃ out, transform_inputs fmT0 T0 = .ok out ∧
      out.getColE "STOCK"
        = .ok ((([Value.vstr "A", Value.vstr "A"] : List (Value ℚ)).map Value.pyStr).map
            (fun v => Value.num (((["A"] : List String).indexOf v : ℕ) : ℝ))) := by
  constructor
  · exact (claim_C7 Formatter.init fmT0 T0 T7
      [[0, 2], [0, 2], [0, 2], [0, 2], [0, 2], [0, 2], [0, 2]]
      [.vstr "A", .vstr "B"] ["A"]
      [⟨1, 1⟩, ⟨1, 1⟩, ⟨1, 1⟩, ⟨1, 1⟩, ⟨1, 1⟩, ⟨1, 1⟩, ⟨1, 1⟩]
      set_scalers_T0 rfl rfl (by decide) (by decide) (by decide)).1
      ⟨"B", by decide, by decide⟩
  · exact (claim_C7 Formatter.init fmT0 T0 T0
      [[0, 2], [0, 2], [0, 2], [0, 2], [0, 2], [0, 2], [0, 2]]
      [.vstr "A", .vstr "A"] ["A"]
      [⟨1, 1⟩, ⟨1, 1⟩, ⟨1, 1⟩, ⟨1, 1⟩, ⟨1, 1⟩, ⟨1, 1⟩, ⟨1, 1⟩]
      set_scalers_T0 rfl rfl (by decide) (by decide) (by decide)).2
      (by decide)

/-- C6 (confirmed): for a calibrated formatter, `format_predictions` returns
a copy in which the two reserved columns (`forecast_time` and `identifier`)
are unchanged and every other column's values are replaced by
`value * scale + mean` using the target-scaler statistics. -/
theorem claim_C6 (fm : Formatter) (s : Scaler) (P : Table ℚ)
    (hsome : fm.target_scaler = some s) (hWF : P.WF)
    (hnum : ∀ c ∈ P.cols, ¬(c = "forecast_time" ∨ c = "identifier") →
        ∃ qs, P.numCol c = .ok qs) :
    ∃ out, format_predictions fm P = .ok out ∧ out.cols = P.cols ∧
      out.rows.length = P.rows.length ∧
      (∀ c vs, (c = "forecast_time" ∨ c = "identifier") → P.getColE c = .ok vs →
          out.getColE c = .ok (vs.map Value.toR)) ∧
      (∀ c vs qs, c ∈ P.cols → ¬(c = "forecast_time" ∨ c = "identifier") →
          P.getColE c = .ok vs → colToQ vs = .ok qs →
          out.getColE c
            = .ok (qs.map (fun (v : ℚ) => Value.num (s.itfm (v : ℝ))))) := by
  obtain ⟨out, hfold, hcols, hlen, _, huntouched, hwr⟩ :=
    foldlM_fpStep_spec fm s P hsome P.cols P.toR (fun c hc => hc)
      (Table.toR_rows_length P) (Table.toR_WF P hWF)
      (fun c hc hnr => by
        obtain ⟨qs, hq⟩ := hnum c hc hnr
        obtain ⟨vs, h1, h2⟩ := numCol_inv P c qs hq
        exact ⟨vs, qs, h1, h2⟩)
  refine ⟨out, by unfold format_predictions; exact hfold, hcols, ?_, ?_, ?_⟩
  · rw [hlen, Table.toR_rows_length]
  · intro c vs hres hvs
    rw [huntouched c (Or.inr hres)]
    exact Table.getColE_toR P c vs hvs
  · intro c vs qs hc hnr hvs hqs
    exact hwr c hc hnr vs qs hvs hqs

theorem claim_C6_witness :
    ∃ out, format_predictions fmT0 P6 = .ok out ∧ out.cols = P6.cols ∧
      out.rows.length = P6.rows.length ∧
      out.getColE "identifier"
        = .ok ([Value.num (1 : ℚ), Value.num 1].map Value.toR) ∧
      out.getColE "p50"
        = .ok (([0, 2] : List ℚ).map
            (fun (v : ℚ) => Value.num (Scaler.itfm ⟨1, 1⟩ (v : ℝ)))) := by
  obtain ⟨out, h1, h2, h3, hres, hwr⟩ := claim_C6 fmT0 ⟨1, 1⟩ P6 rfl (by decide)
    (by
      intro c hc hnr
      rw [show P6.cols = ["forecast_time", "identifier", "p50"] from rfl] at hc
      simp only [List.mem_cons, List.not_mem_nil, or_false] at hc
      rcases hc with rfl | rfl | rfl
      · exact absurd (Or.inl rfl) hnr
      · exact absurd (Or.inr rfl) hnr
      · exact ⟨[0, 2], by decide⟩)
  exact ⟨out, h1, h2, h3,
    hres "identifier" [Value.num 1, Value.num 1] (Or.inr rfl) (by decide),
    hwr "p50" [Value.num 0, Value.num 2] [0, 2] (by decide) (by decide)
      (by decide) (by decide)⟩

/-- Concrete split of `T4` at boundaries `(7, 8)`: the train partition is the
two `DAY < 7` rows, and calibration sees only those. -/
theorem split_T4 : split_data Formatter.init T4 7 8
    = .ok (fmT0, transform_inputs fmT0 T4tr, transform_inputs fmT0 T4va,
           transform_inputs fmT0 T4te) := by
  unfold split_data
  rw [show filterByDay T4 (fun d => decide (d < (7 : ℚ))) = .ok T4tr from by decide,
    okBind,
    show filterByDay T4 (fun d => decide ((7 : ℚ) ≤ d ∧ d < 8)) = .ok T4va from by decide,
    okBind,
    show filterByDay T4 (fun d => decide ((8 : ℚ) ≤ d)) = .ok T4te from by decide,
    okBind, set_scalers_T4tr, okBind]
  rfl

/-- Concrete split of `T4b` (same train and valid rows as `T4`, different
test row) at boundaries `(7, 8)`: calibration gives the same state. -/
theorem split_T4b : split_data Formatter.init T4b 7 8
    = .ok (fmT0, transform_inputs fmT0 T4tr, transform_inputs fmT0 T4va,
           transform_inputs fmT0 T4bte) := by
  unfold split_data
  rw [show filterByDay T4b (fun d => decide (d < (7 : ℚ))) = .ok T4tr from by decide,
    okBind,
    show filterByDay T4b (fun d => decide ((7 : ℚ) ≤ d ∧ d < 8)) = .ok T4va from by decide,
    okBind,
    show filterByDay T4b (fun d => decide ((8 : ℚ) ≤ d)) = .ok T4bte from by decide,
    okBind, set_scalers_T4tr, okBind]
  rfl

/-- C2 (confirmed): `split_data` calibrates from the training partition
alone.  The resulting state equals `set_scalers` of the `DAY < valid_boundary`
rows, its statistics are exactly the per-column mean/variance (and label set)
of that partition, and any other frame with the same training partition —
whatever its validation and test rows — yields the identical calibrated
state. -/
theorem claim_C2 (fm fm' : Formatter) (df : Table ℚ) (vb tb : ℚ)
    (e1 e2 e3 : Except PyError (Table ℝ))
    (h : split_data fm df vb tb = .ok (fm', e1, e2, e3)) :
    ∃ tr, filterByDay df (fun d => decide (d < vb)) = .ok tr ∧
      set_scalers fm tr = .ok fm' ∧
      (∃ mat tvals svs,
        real_inputs.mapM tr.numCol = .ok mat ∧
        tr.numCol "rolling_volatility" = .ok tvals ∧
        tr.getColE "STOCK" = .ok svs ∧
        fm'.real_scalers = some (mat.map (fun l => Scaler.mk (meanQ l) (varQ l))) ∧
        fm'.target_scaler = some (Scaler.mk (meanQ tvals) (varQ tvals)) ∧
        fm'.cat_scalers = some [("STOCK", labelFit (svs.map Value.pyStr))] ∧
        fm'.num_classes_per_cat_input
          = some [(svs.map Value.pyStr).dedup.length]) ∧
      (∀ (fm₂ fm₂' : Formatter) (df₂ : Table ℚ)
          (e1' e2' e3' : Except PyError (Table ℝ)),
        filterByDay df₂ (fun d => decide (d < vb)) = .ok tr →
        split_data fm₂ df₂ vb tb = .ok (fm₂', e1', e2', e3') →
        fm₂' = fm') := by
  obtain ⟨tr, va, te, htr, hva, hte, hset, he1, he2, he3⟩ :=
    split_data_inv fm fm' df vb tb e1 e2 e3 h
  refine ⟨tr, htr, hset, ?_, ?_⟩
  · obtain ⟨idv, mat, tvals, svs, hid, hmat, _, htv, _, hst, hfm⟩ :=
      set_scalers_inv fm fm' tr hset
    subst hfm
    exact ⟨mat, tvals, svs, hmat, htv, hst, rfl, rfl, rfl, rfl⟩
  · intro fm₂ fm₂' df₂ e1' e2' e3' htr₂ h₂
    obtain ⟨tr₂, _, _, htr₂', _, _, hset₂, _, _, _⟩ :=
      split_data_inv fm₂ fm₂' df₂ vb tb e1' e2' e3' h₂
    obtain rfl : tr₂ = tr := Except.ok.inj ((htr₂'.symm).trans htr₂)
    rw [set_scalers_state_independent fm₂ fm] at hset₂
    exact Except.ok.inj ((hset₂.symm).trans hset)

theorem claim_C2_witness :
    (∃ tr, filterByDay T4b (fun d => decide (d < (7 : ℚ))) = .ok tr ∧
      set_scalers Formatter.init tr = .ok fmT0 ∧
      (∃ mat tvals svs,
        real_inputs.mapM tr.numCol = .ok mat ∧
        tr.numCol "rolling_volatility" = .ok tvals ∧
        tr.getColE "STOCK" = .ok svs ∧
        fmT0.real_scalers = some (mat.map (fun l => Scaler.mk (meanQ l) (varQ l))) ∧
        fmT0.target_scaler = some (Scaler.mk (meanQ tvals) (varQ tvals)) ∧
        fmT0.cat_scalers = some [("STOCK", labelFit (svs.map Value.pyStr))] ∧
        fmT0.num_classes_per_cat_input
          = some [(svs.map Value.pyStr).dedup.length]) ∧
      (∀ (fm₂ fm₂' : Formatter) (df₂ : Table ℚ)
          (e1' e2' e3' : Except PyError (Table ℝ)),
        filterByDay df₂ (fun d => decide (d < (7 : ℚ))) = .ok tr →
        split_data fm₂ df₂ 7 8 = .ok (fm₂', e1', e2', e3') →
        fm₂' = fmT0)) ∧
    ∃ tr, filterByDay T4 (fun d => decide (d < (7 : ℚ))) = .ok tr ∧
      set_scalers Formatter.init tr = .ok fmT0 ∧
      (∃ mat tvals svs,
        real_inputs.mapM tr.numCol = .ok mat ∧
        tr.numCol "rolling_volatility" = .ok tvals ∧
        tr.getColE "STOCK" = .ok svs ∧
        fmT0.real_scalers = some (mat.map (fun l => Scaler.mk (meanQ l) (varQ l))) ∧
        fmT0.target_scaler = some (Scaler.mk (meanQ tvals) (varQ tvals)) ∧
        fmT0.cat_scalers = some [("STOCK", labelFit (svs.map Value.pyStr))] ∧
        fmT0.num_classes_per_cat_input
          = some [(svs.map Value.pyStr).dedup.length]) ∧
      (∀ (fm₂ fm₂' : Formatter) (df₂ : Table ℚ)
          (e1' e2' e3' : Except PyError (Table ℝ)),
        filterByDay df₂ (fun d => decide (d < (7 : ℚ))) = .ok tr →
        split_data fm₂ df₂ 7 8 = .ok (fm₂', e1', e2', e3') →
        fm₂' = fmT0) :=
  ⟨claim_C2 Formatter.init fmT0 T4b 7 8
      (transform_inputs fmT0 T4tr) (transform_inputs fmT0 T4va)
      (transform_inputs fmT0 T4bte) split_T4b,
   claim_C2 Formatter.init fmT0 T4 7 8
      (transform_inputs fmT0 T4tr) (transform_inputs fmT0 T4va)
      (transform_inputs fmT0 T4te) split_T4⟩

/-- With `vb ≤ tb`, the three boundary predicates split any list of
day-tagged rows into a permutation of the whole list (each element satisfies
exactly one predicate). -/
theorem filter_three_perm {β : Type} (vb tb : ℚ) (hvb : vb ≤ tb)
    (l : List (β × ℚ)) :
    List.Perm (l.filter (fun rd => decide (rd.2 < vb)) ++
      (l.filter (fun rd => decide (vb ≤ rd.2 ∧ rd.2 < tb)) ++
       l.filter (fun rd => decide (tb ≤ rd.2)))) l := by
  have h1 := List.filter_append_perm (fun rd : β × ℚ => decide (rd.2 < vb)) l
  have h2 := List.filter_append_perm (fun rd : β × ℚ => decide (rd.2 < tb))
    (l.filter (fun rd => !decide (rd.2 < vb)))
  rw [List.filter_filter, List.filter_filter] at h2
  have e1 : l.filter (fun a => decide (a.2 < tb) && !decide (a.2 < vb))
      = l.filter (fun a => decide (vb ≤ a.2 ∧ a.2 < tb)) := by
    apply List.filter_congr
    intro a _
    by_cases hx : a.2 < vb
    · simp [hx, not_le.mpr hx]
    · simp [hx, le_of_not_lt hx]
  have e2 : l.filter (fun a => !decide (a.2 < tb) && !decide (a.2 < vb))
      = l.filter (fun a => decide (tb ≤ a.2)) := by
    apply List.filter_congr
    intro a _
    by_cases hy : a.2 < tb
    · simp [hy, not_le.mpr hy]
    · simp [hy, le_of_not_lt hy, not_lt.mpr (le_trans hvb (le_of_not_lt hy))]
  rw [e1, e2] at h2
  exact (List.Perm.append_left _ h2).trans h1

/-- C4 (amended): provided `valid_boundary ≤ test_boundary`, `split_data`
partitions the rows three ways by the `DAY` value — `< vb` to train,
`vb ≤ · < tb` to valid, `≥ tb` to test — every input row landing in exactly
one partition (the three partitions together are a permutation of the input
rows), and returns the three transformed partitions in the order
(train, valid, test).  Without `vb ≤ tb` the first and third ranges overlap
and a row can land in two partitions (see the counterexample). -/
theorem claim_C4 (fm fm' : Formatter) (df : Table ℚ) (vb tb : ℚ)
    (e1 e2 e3 : Except PyError (Table ℝ)) (tr va te : Table ℚ)
    (hvb : vb ≤ tb)
    (h : split_data fm df vb tb = .ok (fm', e1, e2, e3))
    (htr : filterByDay df (fun d => decide (d < vb)) = .ok tr)
    (hva : filterByDay df (fun d => decide (vb ≤ d ∧ d < tb)) = .ok va)
    (hte : filterByDay df (fun d => decide (tb ≤ d)) = .ok te) :
    e1 = transform_inputs fm' tr ∧ e2 = transform_inputs fm' va ∧
    e3 = transform_inputs fm' te ∧
    List.Perm (tr.rows ++ va.rows ++ te.rows) df.rows ∧
    ∃ dvs ds, df.getColE "DAY" = .ok dvs ∧ colToQ dvs = .ok ds ∧
      tr.rows = ((df.rows.zip ds).filter (fun rd => decide (rd.2 < vb))).map Prod.fst ∧
      va.rows = ((df.rows.zip ds).filter
        (fun rd => decide (vb ≤ rd.2 ∧ rd.2 < tb))).map Prod.fst ∧
      te.rows = ((df.rows.zip ds).filter (fun rd => decide (tb ≤ rd.2))).map Prod.fst := by
  obtain ⟨tr₀, va₀, te₀, htr₀, hva₀, hte₀, _, he1, he2, he3⟩ :=
    split_data_inv fm fm' df vb tb e1 e2 e3 h
  obtain rfl : tr = tr₀ := Except.ok.inj ((htr.symm).trans htr₀)
  obtain rfl : va = va₀ := Except.ok.inj ((hva.symm).trans hva₀)
  obtain rfl : te = te₀ := Except.ok.inj ((hte.symm).trans hte₀)
  obtain ⟨dvs, ds, hdvs, hds, htrEq⟩ := filterByDay_inv df _ tr htr
  obtain ⟨dvs₂, ds₂, hdvs₂, hds₂, hvaEq⟩ := filterByDay_inv df _ va hva
  obtain ⟨dvs₃, ds₃, hdvs₃, hds₃, hteEq⟩ := filterByDay_inv df _ te hte
  obtain rfl : dvs = dvs₂ := Except.ok.inj ((hdvs.symm).trans hdvs₂)
  obtain rfl : dvs = dvs₃ := Except.ok.inj ((hdvs.symm).trans hdvs₃)
  obtain rfl : ds = ds₂ := Except.ok.inj ((hds.symm).trans hds₂)
  obtain rfl : ds = ds₃ := Except.ok.inj ((hds.symm).trans hds₃)
  have hrows₁ : tr.rows
      = ((df.rows.zip ds).filter (fun rd => decide (rd.2 < vb))).map Prod.fst := by
    rw [htrEq]
  have hrows₂ : va.rows = ((df.rows.zip ds).filter
      (fun rd => decide (vb ≤ rd.2 ∧ rd.2 < tb))).map Prod.fst := by
    rw [hvaEq]
  have hrows₃ : te.rows
      = ((df.rows.zip ds).filter (fun rd => decide (tb ≤ rd.2))).map Prod.fst := by
    rw [hteEq]
  refine ⟨he1, he2, he3, ?_, dvs, ds, hdvs, hds, hrows₁, hrows₂, hrows₃⟩
  rw [hrows₁, hrows₂, hrows₃, List.append_assoc, ← List.map_append, ← List.map_append]
  have hperm := (filter_three_perm vb tb hvb (df.rows.zip ds)).map Prod.fst
  refine hperm.trans ?_
  rw [List.map_fst_zip]
  have hlds : ds.length = df.rows.length := by
    rw [colToQ_length dvs ds hds]
    exact Table.getColE_length df _ dvs hdvs
  omega

theorem claim_C4_witness :
    transform_inputs fmT0 T4tr = transform_inputs fmT0 T4tr ∧
    transform_inputs fmT0 T4va = transform_inputs fmT0 T4va ∧
    transform_inputs fmT0 T4te = transform_inputs fmT0 T4te ∧
    List.Perm (T4tr.rows ++ T4va.rows ++ T4te.rows) T4.rows ∧
    ∃ dvs ds, T4.getColE "DAY" = .ok dvs ∧ colToQ dvs = .ok ds ∧
      T4tr.rows = ((T4.rows.zip ds).filter
        (fun rd => decide (rd.2 < (7 : ℚ)))).map Prod.fst ∧
      T4va.rows = ((T4.rows.zip ds).filter
        (fun rd => decide ((7 : ℚ) ≤ rd.2 ∧ rd.2 < 8))).map Prod.fst ∧
      T4te.rows = ((T4.rows.zip ds).filter
        (fun rd => decide ((8 : ℚ) ≤ rd.2))).map Prod.fst :=
  claim_C4 Formatter.init fmT0 T4 7 8
    (transform_inputs fmT0 T4tr) (transform_inputs fmT0 T4va)
    (transform_inputs fmT0 T4te) T4tr T4va T4te
    (by norm_num) split_T4 (by decide) (by decide) (by decide)

/-- Concrete split of the one-row frame `T4c` at the reversed boundaries
`(valid_boundary, test_boundary) = (8, 7)`. -/
theorem split_T4c : split_data Formatter.init T4c 8 7
    = .ok (fmT4c, transform_inputs fmT4c T4c, transform_inputs fmT4c T4cva,
           transform_inputs fmT4c T4c) := by
  unfold split_data
  rw [show filterByDay T4c (fun d => decide (d < (8 : ℚ))) = .ok T4c from by decide,
    okBind,
    show filterByDay T4c (fun d => decide ((8 : ℚ) ≤ d ∧ d < 7)) = .ok T4cva
      from by decide,
    okBind,
    show filterByDay T4c (fun d => decide ((7 : ℚ) ≤ d)) = .ok T4c from by decide,
    okBind, set_scalers_T4c, okBind]
  rfl

/-- C4 counterexample to the claim as stated (which quantifies over all
boundary values): with boundaries `(8, 7)` the single row with `DAY = 7`
satisfies both `DAY < 8` (train) and `DAY ≥ 7` (test), so it lands in two
partitions and the partitions are not a permutation of the input rows. -/
theorem claim_C4_counterexample :
    split_data Formatter.init T4c 8 7
      = .ok (fmT4c, transform_inputs fmT4c T4c, transform_inputs fmT4c T4cva,
             transform_inputs fmT4c T4c) ∧
    filterByDay T4c (fun d => decide (d < (8 : ℚ))) = .ok T4c ∧
    filterByDay T4c (fun d => decide ((8 : ℚ) ≤ d ∧ d < 7)) = .ok T4cva ∧
    filterByDay T4c (fun d => decide ((7 : ℚ) ≤ d)) = .ok T4c ∧
    ¬ List.Perm (T4c.rows ++ T4cva.rows ++ T4c.rows) T4c.rows :=
  ⟨split_T4c, by decide, by decide, by decide, by decide⟩

end VolFmt
